import Mathlib

/-! SPI console (`spi.c`): parser, transfer dump, configuration and main loop.

A shallow embedding of `src/spi.c`.  C strings are lists of characters read up
to the first NUL; bytes are natural numbers kept below 256 by `% 256` at every
store; the device, the standard input and the uninitialised scratch memory of
`send_cmd` are explicit parameters.
-/

namespace SpiConsole

/-! ## Constants of the source -/

/-- The macro `SPI_DEVICE`, `"/dev/spidev0.0"`: the path that `main` opens. -/
def SPI_DEVICE : String := "/dev/spidev0.0"

/-- The macro `MAX_SPI_SPEED`, 1000000 Hz. -/
def MAX_SPI_SPEED : Nat := 1000000

/-- The macro `BUFFER_SIZE`, 6: the size of both buffers and the length of a transfer. -/
def BUFFER_SIZE : Nat := 6

/-- The value of `SPI_MODE_0` in `<linux/spi/spidev.h>` (clock idle low, sample on the
leading edge): no mode bit set. -/
def SPI_MODE_0 : Nat := 0

/-- The value of `LONG_MAX` in `<limits.h>` on a platform with a 64-bit `long`; `strtol`
saturates there.  No theorem below depends on the width. -/
def LONG_MAX : Nat := 2 ^ 63 - 1

/-! ## C strings and the library calls used by the parser -/

/-- The terminating character of a C string. -/
def NUL : Char := Char.ofNat 0

/-- The library call `strlen`: the number of characters before the first NUL.  A list
that holds no NUL stands for a string whose terminator sits right after its last element. -/
def strlen : List Char → Nat
  | [] => 0
  | c :: cs => if c = NUL then 0 else strlen cs + 1

/-- The expression `s[i]` for an index up to the terminator: the character at `i`, and NUL
at `strlen s`; the parse loop reads no index past the terminator. -/
def charAt (s : List Char) (i : Nat) : Char :=
  if i < strlen s then s.getD i NUL else NUL

/-- The library call `strncpy(dst, src, n)`: the `n` characters stored at `dst` — the
characters of `src` up to its terminator, then NUL padding; no terminator is stored when
`src` has `n` or more characters. -/
def strncpy : List Char → Nat → List Char
  | _, 0 => []
  | [], n + 1 => List.replicate (n + 1) NUL
  | c :: cs, n + 1 => if c = NUL then List.replicate (n + 1) NUL else c :: strncpy cs n

/-- The number of characters of `src` that `strncpy(dst, src, n)` reads: it stops after the
terminator or after `n` characters. -/
def strncpyReads (src : List Char) (n : Nat) : Nat := min n (strlen src + 1)

/-- The test `isspace` of the C locale. -/
def isspace (c : Char) : Bool :=
  c.toNat = 32 || (9 ≤ c.toNat && c.toNat ≤ 13)

/-- The value of a hexadecimal digit, `none` for any other character. -/
def hexVal (c : Char) : Option Nat :=
  if 48 ≤ c.toNat ∧ c.toNat ≤ 57 then some (c.toNat - 48)
  else if 97 ≤ c.toNat ∧ c.toNat ≤ 102 then some (c.toNat - 87)
  else if 65 ≤ c.toNat ∧ c.toNat ≤ 70 then some (c.toNat - 55)
  else none

/-- The digit loop of `strtol` in base 16: accumulates while it sees hexadecimal digits and
stops at the first other character (or at the end of the memory shown to it). -/
def hexDigits : List Char → Nat → Nat
  | [], acc => acc
  | c :: cs, acc =>
    match hexVal c with
    | some d => hexDigits cs (16 * acc + d)
    | none => acc

/-- The optional sign of `strtol`: whether the number is negated, and the rest. -/
def strtolSign : List Char → Bool × List Char
  | c :: cs => if c = '-' then (true, cs) else if c = '+' then (false, cs) else (false, c :: cs)
  | [] => (false, [])

/-- The optional `0x`/`0X` of `strtol` in base 16: skipped only when a hexadecimal digit
follows it; otherwise the conversion starts at the `0`. -/
def strtolSkip0x : List Char → List Char
  | c0 :: c1 :: c2 :: cs =>
    if c0 = '0' ∧ (c1 = 'x' ∨ c1 = 'X') ∧ (hexVal c2).isSome then c2 :: cs
    else c0 :: c1 :: c2 :: cs
  | s => s

/-- The library call `strtol(s, NULL, 16)`: white space, optional sign, optional `0x`, then
the longest run of hexadecimal digits; 0 when there is no digit; saturation at the ends of
the range of `long`. -/
def strtol16 (s : List Char) : Int :=
  let signed := strtolSign (s.dropWhile isspace)
  let v := hexDigits (strtolSkip0x signed.2) 0
  if signed.1 then (if v ≤ LONG_MAX + 1 then - (v : Int) else - ((LONG_MAX : Int) + 1))
  else (if v ≤ LONG_MAX then (v : Int) else (LONG_MAX : Int))

/-- The conversion of a `long` to `uint8_t` at the assignment to `tx_buffer[buf_i]`. -/
def toUint8 (v : Int) : Nat := (v % 256).toNat

/-! ## The parse loop of `send_cmd` -/

/-- The variables of the parse loop, with a log of the indices of `tx_rx` it has read and
of the indices of `tx_buffer` it has written. -/
structure ParseState where
  i : Nat
  buf_i : Nat
  tx_buffer : List Nat
  reads : List Nat
  writes : List Nat
deriving DecidableEq, Repr

/-- The first four elements of `byte` after the copies of one iteration at position `i`:
`strncpy(byte, &tx_rx[i], 4)` when `tx_rx[i+1] == 'x'`, and otherwise
`strncpy(byte, "0x", 2); strncpy(&byte[2], &tx_rx[i], 2)`. -/
def byteCopy (tx_rx : List Char) (i : Nat) : List Char :=
  if charAt tx_rx (i + 1) = 'x' then strncpy (tx_rx.drop i) 4
  else strncpy ['0', 'x'] 2 ++ strncpy (tx_rx.drop i) 2

/-- The indices of `tx_rx` read by `strncpy(_, &tx_rx[i], n)`. -/
def copyReads (tx_rx : List Char) (i n : Nat) : List Nat :=
  (List.range (strncpyReads (tx_rx.drop i) n)).map (fun j => i + j)

/-- The byte stored by `tx_buffer[buf_i] = strtol(byte, NULL, 16)` for the token at
position `i`.  `stack` is the memory from `byte[4]` on as `strtol` finds it: `char byte[5]`
is not initialised and no statement of `send_cmd` stores into `byte[4]`. -/
def tokenByte (tx_rx stack : List Char) (i : Nat) : Nat :=
  toUint8 (strtol16 (byteCopy tx_rx i ++ stack))

/-- One iteration of the body of the parse loop (lines 78-97). -/
def parseBody (tx_rx stack : List Char) (st : ParseState) : ParseState :=
  if charAt tx_rx st.i = ' ' ∨ charAt tx_rx st.i = '\n' then
    { st with i := st.i + 1, reads := st.reads ++ [st.i] }
  else
    let n := if charAt tx_rx (st.i + 1) = 'x' then 4 else 2
    { i := st.i + n
      buf_i := st.buf_i + 1
      tx_buffer := st.tx_buffer.set st.buf_i (tokenByte tx_rx stack st.i)
      reads := st.reads ++ [st.i, st.i + 1] ++ copyReads tx_rx st.i n
      writes := st.writes ++ [st.buf_i] }

/-- The parse loop `for (int i = 0, buf_i = 0; i < strlen(tx_rx) && buf_i < sizeof(tx_buffer);)`
run for at most `fuel` evaluations of its condition; `none` when the fuel runs out before
the condition fails.  Each evaluation of the condition scans `tx_rx` up to its terminator. -/
def parseLoop (tx_rx stack : List Char) : Nat → ParseState → Option ParseState
  | 0, _ => none
  | fuel + 1, st =>
    let st1 := { st with reads := st.reads ++ List.range (strlen tx_rx + 1) }
    if st.i < strlen tx_rx ∧ st.buf_i < BUFFER_SIZE then
      parseLoop tx_rx stack fuel (parseBody tx_rx stack st1)
    else some st1

/-- The buffers after the reset loop of lines 66-70, `tx_buffer[i] = 0; rx_buffer[i] = 0`
for `i` from 0 to 5. -/
def resetBuffer (buf : List Nat) : List Nat :=
  (List.range BUFFER_SIZE).foldl (fun b i => b.set i 0) buf

/-- Lines 66-98 of `send_cmd`: reset of `tx_buffer`, then the parse loop from
`i = 0, buf_i = 0`, with fuel for every character of the line. -/
def parse (tx_rx stack : List Char) (tx_buffer : List Nat) : Option ParseState :=
  parseLoop tx_rx stack (strlen tx_rx + 1)
    { i := 0, buf_i := 0, tx_buffer := resetBuffer tx_buffer, reads := [], writes := [] }

/-! ## The device, the global state and the trace of a run -/

/-- What a buffer field of the transfer descriptor points to. -/
inductive Ptr
  | null
  | tx_buffer
  | rx_buffer
  | other (addr : Nat)
deriving DecidableEq, Repr

/-- The global `struct spi_ioc_transfer trx`: the six fields the source assigns, and
`rest` for the fields of the kernel structure that the source never names (0 when they
are all zero). -/
structure Descriptor where
  tx_buf : Ptr
  rx_buf : Ptr
  len : Nat
  speed_hz : Nat
  delay_usecs : Nat
  bits_per_word : Nat
  rest : Nat
deriving DecidableEq, Repr

/-- The global variables of `spi.c`. -/
structure Globals where
  trx : Descriptor
  tx_buffer : List Nat
  rx_buffer : List Nat
deriving DecidableEq, Repr

/-- The globals at program start: `trx` zeroed, both buffers six zero bytes. -/
def initialGlobals : Globals :=
  { trx := { tx_buf := Ptr.null, rx_buf := Ptr.null, len := 0, speed_hz := 0,
             delay_usecs := 0, bits_per_word := 0, rest := 0 }
    tx_buffer := [0, 0, 0, 0, 0, 0]
    rx_buffer := [0, 0, 0, 0, 0, 0] }

/-- The observable actions of the program, in order: calls on the device and text written
to the standard output. -/
inductive Event
  | print (text : List Char)
  | openDevice (path : String)
  | setMode (fd : Int) (setting : Nat)
  | setMaxSpeed (fd : Int) (setting : Nat)
  | transfer (fd : Int) (trx : Descriptor) (tx : List Nat)
  | close (fd : Int)
deriving DecidableEq, Repr

/-- The answers of the environment: the results of `open` and of the two configuration
`ioctl`s, for the `k`-th call of `send_cmd` the result of the message `ioctl` with the bytes
it leaves in `rx_buffer`, and the memory found from `byte[4]` on during that call. -/
structure Device where
  open_ret : Int
  mode_ret : Int
  speed_ret : Int
  message : Nat → Descriptor → List Nat → Int × List Nat
  stack : Nat → List Char

/-- The text written to the standard output by a trace. -/
def stdout : List Event → List Char
  | [] => []
  | Event.print t :: es => t ++ stdout es
  | _ :: es => stdout es

/-- Whether an event is a message transfer. -/
def isTransfer : Event → Bool
  | Event.transfer _ _ _ => true
  | _ => false

/-- Whether an event releases the device handle. -/
def isClose : Event → Bool
  | Event.close _ => true
  | _ => false

/-- Whether an event is a call that is given the device handle. -/
def usesHandle : Event → Bool
  | Event.setMode _ _ => true
  | Event.setMaxSpeed _ _ => true
  | Event.transfer _ _ _ => true
  | Event.close _ => true
  | _ => false

/-- The number of message transfers in a trace. -/
def transfers (tr : List Event) : Nat := (tr.filter isTransfer).length

/-- The number of `close` calls in a trace. -/
def closes (tr : List Event) : Nat := (tr.filter isClose).length

/-! ## `init_spi_device` -/

/-- The function `init_spi_device(fd)`, given the results `mode_ret` and `speed_ret` that the
two `ioctl` calls report: the returned flag, the globals afterwards and the trace. -/
def init_spi_device (mode_ret speed_ret : Int) (fd : Int) (g : Globals) :
    Bool × Globals × List Event :=
  if mode_ret ≠ 0 then
    (false, g, [Event.setMode fd SPI_MODE_0, Event.print "Could not write SPI mode...\r\n".toList])
  else if speed_ret ≠ 0 then
    (false, g, [Event.setMode fd SPI_MODE_0, Event.setMaxSpeed fd MAX_SPI_SPEED,
                Event.print "Could not write the SPI max speed...\r\n".toList])
  else
    (true,
     { g with trx := { g.trx with tx_buf := Ptr.tx_buffer, rx_buf := Ptr.rx_buffer,
                                  bits_per_word := 0, speed_hz := MAX_SPI_SPEED,
                                  delay_usecs := 0, len := BUFFER_SIZE } },
     [Event.setMode fd SPI_MODE_0, Event.setMaxSpeed fd MAX_SPI_SPEED])

/-! ## `send_cmd` -/

/-- The conversion `%02x` of `printf` for an unsigned value: lowercase hexadecimal digits,
padded with zeros on the left to a width of at least two. -/
def fmt02x (v : Nat) : List Char :=
  List.replicate (2 - (Nat.toDigits 16 v).length) '0' ++ Nat.toDigits 16 v

/-- The loop `for (int i = 0; i < BUFFER_SIZE; ++i) printf("%02x ", buf[i]);`. -/
def dumpBytes (buf : List Nat) : List Event :=
  (List.range BUFFER_SIZE).map (fun i => Event.print (fmt02x (buf.getD i 0) ++ [' ']))

/-- The six bytes of a `uint8_t[BUFFER_SIZE]` array after the device has written it. -/
def storeBytes (bytes : List Nat) : List Nat :=
  (List.range BUFFER_SIZE).map (fun i => bytes.getD i 0 % 256)

/-- Lines 100-115 of `send_cmd`: the message `ioctl`, the diagnostic when it returns less
than 1, then the two dumps.  `answer` is what the `ioctl` returns and leaves in
`rx_buffer`. -/
def transferAndDump (answer : Int × List Nat) (fd : Int) (g : Globals) :
    Globals × List Event :=
  let g1 := { g with rx_buffer := storeBytes answer.2 }
  (g1,
   [Event.transfer fd g.trx g.tx_buffer]
   ++ (if answer.1 < 1 then [Event.print "Failed to write to SPI message...\r\n".toList] else [])
   ++ [Event.print "TX: ".toList] ++ dumpBytes g1.tx_buffer ++ [Event.print "\r\n".toList]
   ++ [Event.print "RX: ".toList] ++ dumpBytes g1.rx_buffer ++ [Event.print "\r\n".toList])

/-- The function `send_cmd(fd, tx_rx)`: reset of both buffers, parse loop, transfer and
dumps.  `none` stands for a parse loop that does not end. -/
def send_cmd (stack : List Char) (message : Descriptor → List Nat → Int × List Nat)
    (fd : Int) (tx_rx : List Char) (g : Globals) : Option (Globals × List Event) :=
  match parse tx_rx stack g.tx_buffer with
  | none => none
  | some st =>
    let g1 := { g with tx_buffer := st.tx_buffer, rx_buffer := resetBuffer g.rx_buffer }
    some (transferAndDump (message g1.trx g1.tx_buffer) fd g1)

/-! ## `main` -/

/-- How a run ends: the exit code with the trace, or still inside a loop when the fuel of
the model ran out, with the trace so far. -/
inductive Outcome
  | exited (code : Int) (trace : List Event)
  | running (trace : List Event)
deriving DecidableEq, Repr

/-- The trace of an outcome. -/
def Outcome.trace : Outcome → List Event
  | Outcome.exited _ t => t
  | Outcome.running t => t

/-- The characters one call `fgets(cmd, n + 1, stdin)` takes from a non-empty input: up to
and including the first newline, at most `n`; with the rest of the input. -/
def fgetsTake : Nat → List Char → List Char × List Char
  | 0, s => ([], s)
  | _, [] => ([], [])
  | n + 1, c :: cs =>
    if c = '\n' then ([c], cs)
    else ((fgetsTake n cs).1.cons c, (fgetsTake n cs).2)

/-- The call `fgets(cmd, sizeof(cmd), stdin)` with `char cmd[256]`: at end of input the
call fails and `cmd` keeps its content (the result of the call is not looked at). -/
def fgets (cmd stdin : List Char) : List Char × List Char :=
  match stdin with
  | [] => (cmd, [])
  | _ => fgetsTake 255 stdin

/-- The string in `cmd` and the input left after `n` calls of `fgets`. -/
def readN : Nat → List Char → List Char → List Char × List Char
  | 0, cmd, stdin => (cmd, stdin)
  | n + 1, cmd, stdin => readN n (fgets cmd stdin).1 (fgets cmd stdin).2

/-- The prompt of the read loop. -/
def promptText : List Char := "Enter bytes to send or 'q' to quit\n".toList

/-- Lines 167-168: `close(fd); return 0;`. -/
def closeAndExit (fd : Int) (trace : List Event) : Outcome :=
  Outcome.exited 0 (trace ++ [Event.close fd])

/-- The loop `while (cmd[0] != 'q')` of `main` followed by lines 167-168, for at most `fuel`
evaluations of the loop condition.  `calls` counts the calls of `send_cmd` so far. -/
def mainLoop (dev : Device) (fd : Int) :
    Nat → List Char → List Char → Nat → Globals → List Event → Outcome
  | 0, _, _, _, _, trace => Outcome.running trace
  | fuel + 1, cmd, stdin, calls, g, trace =>
    if charAt cmd 0 = 'q' then closeAndExit fd trace
    else
      let rd := fgets cmd stdin
      let trace1 := trace ++ [Event.print promptText]
      if charAt rd.1 0 = 'q' then closeAndExit fd trace1
      else if charAt rd.1 0 ≠ '\n' ∧ charAt rd.1 0 ≠ NUL then
        match send_cmd (dev.stack calls) (dev.message calls) fd rd.1 g with
        | none => Outcome.running trace1
        | some r => mainLoop dev fd fuel rd.1 rd.2 (calls + 1) r.1 (trace1 ++ r.2)
      else mainLoop dev fd fuel rd.1 rd.2 calls g trace1

/-- The function `main(argc, argv)` with `argc = argv.length`, on the input `stdin`. -/
def main (dev : Device) (argv : List (List Char)) (stdin : List Char) (fuel : Nat) : Outcome :=
  if argv.length < 2 then
    Outcome.exited 1
      [Event.print ("Usage: ".toList ++ argv.headD "(null)".toList ++ " <spi_device>\r\n".toList)]
  else if dev.open_ret < 0 then
    Outcome.exited 1 [Event.openDevice SPI_DEVICE,
                      Event.print "Could not open the SPI device...\r\n".toList]
  else
    let r := init_spi_device dev.mode_ret dev.speed_ret dev.open_ret initialGlobals
    if r.1 = false then
      Outcome.exited 1 ([Event.openDevice SPI_DEVICE] ++ r.2.2
        ++ [Event.print "Could not init SPI device...\r\n".toList, Event.close dev.open_ret])
    else
      mainLoop dev dev.open_ret fuel [] stdin 0 r.2.1 ([Event.openDevice SPI_DEVICE] ++ r.2.2)

/-- A device that accepts everything and answers each transfer with the bytes sent. -/
def echoDevice : Device :=
  { open_ret := 3, mode_ret := 0, speed_ret := 0
    message := fun _ _ tx => (1, tx)
    stack := fun _ => [] }

/-! ## Definitions used to state the claims -/

/-- The step test in the words of the specification, read literally: the 4-character step
is taken when the character two positions ahead is `x`. -/
def specStepTwoAhead (tx_rx : List Char) (i : Nat) : Nat :=
  if charAt tx_rx (i + 2) = 'x' then 4 else 2

/-- The step test in the words of the specification, as glossed there: the 4-character step
is taken when the current and the next character are `0` and `x`. -/
def specStepZeroX (tx_rx : List Char) (i : Nat) : Nat :=
  if charAt tx_rx i = '0' ∧ charAt tx_rx (i + 1) = 'x' then 4 else 2

/-- The parse state at the start of the loop over a zeroed buffer. -/
def parseStart : ParseState :=
  { i := 0, buf_i := 0, tx_buffer := [0, 0, 0, 0, 0, 0], reads := [], writes := [] }

/-- A device whose `open` fails. -/
def noDevice : Device := { echoDevice with open_ret := -1 }

/-- A device that rejects the maximum speed. -/
def slowDevice : Device := { echoDevice with speed_ret := -1 }

/-- The lowercase hexadecimal digit for a value below 16. -/
def lowerHexDigit (d : Nat) : Char := "0123456789abcdef".toList.getD d '0'

/-- One byte of a dump in the words of the specification: exactly two lowercase
hexadecimal digits, high digit first, and the space that separates it from what follows. -/
def specByte (b : Nat) : List Char := [lowerHexDigit (b / 16), lowerHexDigit (b % 16), ' ']

/-- The bytes of a dump line in the words of the specification. -/
def specDump : List Nat → List Char
  | [] => []
  | b :: bs => specByte b ++ specDump bs

/-- The diagnostic of a failed transfer. -/
def transferDiagnostic : List Char := "Failed to write to SPI message...\r\n".toList

/-- A valid token of a line: one or two hexadecimal digits, bare or after `0x`. -/
inductive Token
  | bare1 (d : Char)
  | bare2 (d1 d2 : Char)
  | hex1 (d : Char)
  | hex2 (d1 d2 : Char)
deriving DecidableEq, Repr

/-- The characters of a token. -/
def Token.chars : Token → List Char
  | Token.bare1 d => [d]
  | Token.bare2 d1 d2 => [d1, d2]
  | Token.hex1 d => ['0', 'x', d]
  | Token.hex2 d1 d2 => ['0', 'x', d1, d2]

/-- Whether the digit characters of a token are hexadecimal digits. -/
def Token.valid : Token → Bool
  | Token.bare1 d => (hexVal d).isSome
  | Token.bare2 d1 d2 => (hexVal d1).isSome && (hexVal d2).isSome
  | Token.hex1 d => (hexVal d).isSome
  | Token.hex2 d1 d2 => (hexVal d1).isSome && (hexVal d2).isSome

/-- The byte a valid token stands for. -/
def Token.value : Token → Nat
  | Token.bare1 d => (hexVal d).getD 0
  | Token.bare2 d1 d2 => 16 * (hexVal d1).getD 0 + (hexVal d2).getD 0
  | Token.hex1 d => (hexVal d).getD 0
  | Token.hex2 d1 d2 => 16 * (hexVal d1).getD 0 + (hexVal d2).getD 0

/-- The separators of a line: space and newline. -/
def isSep (c : Char) : Bool := c = ' ' || c = '\n'

/-- The text of a list of tokens, each followed by its separators. -/
def render : List (Token × List Char) → List Char
  | [] => []
  | item :: rest => item.1.chars ++ item.2 ++ render rest

/-- A line of valid tokens: every token is valid, what follows a token is made of
separators, and there is at least one separator between two tokens. -/
def validItems : List (Token × List Char) → Bool
  | [] => true
  | item :: rest =>
    item.1.valid && item.2.all isSep && (rest.isEmpty || !item.2.isEmpty) && validItems rest

/-- Whether `strtol` stops at `byte[4]`: the scratch memory does not start with a
hexadecimal digit. -/
def stopsAtByte4 : List Char → Bool
  | [] => true
  | c :: _ => (hexVal c).isNone

/-- The buffer the claim describes: the first six values, then zeros up to length six. -/
def expectedBuffer (vals : List Nat) : List Nat :=
  vals.take BUFFER_SIZE ++ List.replicate (BUFFER_SIZE - vals.length) 0

/-- The stores `tx_buffer[buf_i++] = v` for the values of a list, in order. -/
def fillFrom : List Nat → Nat → List Nat → List Nat
  | tx, _, [] => tx
  | tx, buf_i, v :: vs => fillFrom (tx.set buf_i v) (buf_i + 1) vs

/-! ## Facts about the string primitives -/

theorem strlen_drop (s : List Char) (i : Nat) (h : i ≤ strlen s) :
    strlen (s.drop i) = strlen s - i := by
  induction s generalizing i with
  | nil => simp [strlen]
  | cons c cs ih =>
    cases i with
    | zero => simp
    | succ k =>
      by_cases hc : c = NUL
      · simp [strlen, hc] at h
      · simp only [strlen, hc, if_false] at h ⊢
        simp only [List.drop_succ_cons]
        rw [ih k (by omega)]
        omega

theorem charAt_cons_succ (c : Char) (cs : List Char) (j : Nat) (hc : c ≠ NUL) :
    charAt (c :: cs) (j + 1) = charAt cs j := by
  simp [charAt, strlen, hc]

theorem charAt_of_head_nul (cs : List Char) (j : Nat) : charAt (NUL :: cs) j = NUL := by
  simp [charAt, strlen]

theorem charAt_cons_zero (c : Char) (cs : List Char) : charAt (c :: cs) 0 = c := by
  by_cases hc : c = NUL
  · simp [charAt, strlen, hc]
  · simp [charAt, strlen, hc]

theorem charAt_nil (j : Nat) : charAt [] j = NUL := by
  simp [charAt, strlen]

/-- What `strncpy` stores, character by character: the source characters, NUL from the
terminator on. -/
theorem strncpy_eq_map (s : List Char) (n : Nat) :
    strncpy s n = (List.range n).map (fun j => charAt s j) := by
  induction n generalizing s with
  | zero => cases s <;> simp [strncpy]
  | succ n ih =>
    cases s with
    | nil =>
      simp only [strncpy, charAt_nil]
      exact (List.eq_replicate_iff.mpr ⟨by simp, by simp⟩).symm
    | cons c cs =>
      by_cases hc : c = NUL
      · subst hc
        simp only [strncpy, if_true, charAt_of_head_nul]
        exact (List.eq_replicate_iff.mpr ⟨by simp, by simp⟩).symm
      · simp only [strncpy, hc, if_false]
        rw [List.range_succ_eq_map, List.map_cons, List.map_map, charAt_cons_zero, ih cs]
        congr 1
        apply List.map_congr_left
        intro j _
        simp [charAt_cons_succ c cs j hc]

theorem charAt_drop (s : List Char) (i j : Nat) (h : i ≤ strlen s) :
    charAt (s.drop i) j = charAt s (i + j) := by
  unfold charAt
  rw [strlen_drop s i h]
  by_cases hj : j < strlen s - i
  · have : i + j < strlen s := by omega
    simp [hj, this, List.getD_eq_getElem?_getD, List.getElem?_drop]
  · have : ¬ i + j < strlen s := by omega
    simp [hj, this]

theorem strncpy_drop (s : List Char) (i n : Nat) (h : i ≤ strlen s) :
    strncpy (s.drop i) n = (List.range n).map (fun j => charAt s (i + j)) := by
  rw [strncpy_eq_map]
  apply List.map_congr_left
  intro j _
  exact charAt_drop s i j h

theorem copyReads_le (tx_rx : List Char) (i n r : Nat) (hi : i ≤ strlen tx_rx)
    (hr : r ∈ copyReads tx_rx i n) : r ≤ strlen tx_rx := by
  unfold copyReads strncpyReads at hr
  rw [strlen_drop tx_rx i hi] at hr
  simp only [List.mem_map, List.mem_range] at hr
  obtain ⟨j, hj, rfl⟩ := hr
  omega

theorem parseBody_i_lt (tx_rx stack : List Char) (st : ParseState) :
    st.i < (parseBody tx_rx stack st).i := by
  unfold parseBody
  split
  · simp
  · simp only
    split <;> omega

theorem parseBody_reads (tx_rx stack : List Char) (st : ParseState)
    (hi : st.i < strlen tx_rx) (h : ∀ r ∈ st.reads, r ≤ strlen tx_rx) :
    ∀ r ∈ (parseBody tx_rx stack st).reads, r ≤ strlen tx_rx := by
  intro r hr
  unfold parseBody at hr
  split at hr
  · simp only [List.mem_append, List.mem_singleton] at hr
    rcases hr with hr | hr
    · exact h r hr
    · omega
  · simp only [List.mem_append, List.mem_cons, List.mem_singleton, List.not_mem_nil,
      or_false] at hr
    rcases hr with (hr | hr | hr) | hr
    · exact h r hr
    · omega
    · omega
    · exact copyReads_le tx_rx st.i _ r (by omega) hr

theorem parseBody_writes (tx_rx stack : List Char) (st : ParseState)
    (hb : st.buf_i < BUFFER_SIZE) (h : ∀ w ∈ st.writes, w < BUFFER_SIZE) :
    ∀ w ∈ (parseBody tx_rx stack st).writes, w < BUFFER_SIZE := by
  intro w hw
  unfold parseBody at hw
  split at hw
  · exact h w hw
  · simp only [List.mem_append, List.mem_singleton] at hw
    rcases hw with hw | hw
    · exact h w hw
    · omega

/-- With fuel for every remaining character the parse loop ends, and it keeps all reads of
`tx_rx` at or before the terminator and all writes of `tx_buffer` below `BUFFER_SIZE`. -/
theorem parseLoop_ends (tx_rx stack : List Char) :
    ∀ (fuel : Nat) (st : ParseState), strlen tx_rx ≤ fuel + st.i →
      (∀ r ∈ st.reads, r ≤ strlen tx_rx) → (∀ w ∈ st.writes, w < BUFFER_SIZE) →
      ∃ st', parseLoop tx_rx stack (fuel + 1) st = some st' ∧
        (∀ r ∈ st'.reads, r ≤ strlen tx_rx) ∧ (∀ w ∈ st'.writes, w < BUFFER_SIZE) := by
  intro fuel
  induction fuel with
  | zero =>
    intro st hf hr hw
    refine ⟨{ st with reads := st.reads ++ List.range (strlen tx_rx + 1) }, ?_, ?_, hw⟩
    · have hlt : ¬ (st.i < strlen tx_rx ∧ st.buf_i < BUFFER_SIZE) := by omega
      simp only [parseLoop, hlt, if_false]
    · intro r hr'
      simp only [List.mem_append, List.mem_range] at hr'
      rcases hr' with hr' | hr'
      · exact hr r hr'
      · omega
  | succ n ih =>
    intro st hf hr hw
    have hr1 : ∀ r ∈ st.reads ++ List.range (strlen tx_rx + 1), r ≤ strlen tx_rx := by
      intro r hr'
      simp only [List.mem_append, List.mem_range] at hr'
      rcases hr' with hr' | hr'
      · exact hr r hr'
      · omega
    by_cases hc : st.i < strlen tx_rx ∧ st.buf_i < BUFFER_SIZE
    · have hstep : parseLoop tx_rx stack (n + 1 + 1) st
          = parseLoop tx_rx stack (n + 1)
              (parseBody tx_rx stack
                { st with reads := st.reads ++ List.range (strlen tx_rx + 1) }) := by
        rw [parseLoop]
        simp only [hc, and_self, if_true]
      rw [hstep]
      apply ih
      · have := parseBody_i_lt tx_rx stack
          { st with reads := st.reads ++ List.range (strlen tx_rx + 1) }
        simp only at this
        omega
      · exact parseBody_reads tx_rx stack _ hc.1 hr1
      · exact parseBody_writes tx_rx stack _ hc.2 hw
    · refine ⟨{ st with reads := st.reads ++ List.range (strlen tx_rx + 1) }, ?_, hr1, hw⟩
      rw [parseLoop]
      simp only [hc, if_false]

/-- The parse of `send_cmd` returns for every line, every scratch memory and every prior
buffer. -/
theorem parse_total (tx_rx stack : List Char) (tx_buffer : List Nat) :
    ∃ st, parse tx_rx stack tx_buffer = some st := by
  obtain ⟨st, h, _⟩ := parseLoop_ends tx_rx stack (strlen tx_rx)
    { i := 0, buf_i := 0, tx_buffer := resetBuffer tx_buffer, reads := [], writes := [] }
    (by simp) (by simp) (by simp)
  exact ⟨st, h⟩

/-! ## Facts about `strtol` on the contents of `byte` -/

theorem hexVal_lt (c : Char) (d : Nat) (h : hexVal c = some d) : d < 16 := by
  unfold hexVal at h
  split at h
  · injection h with h; omega
  · split at h
    · injection h with h; omega
    · split at h
      · injection h with h; omega
      · exact absurd h (by simp)

theorem toUint8_natCast (n : Nat) : toUint8 (n : Int) = n % 256 := by
  unfold toUint8
  omega

theorem hexDigits_stop (c : Char) (cs : List Char) (acc : Nat) (h : hexVal c = none) :
    hexDigits (c :: cs) acc = acc := by
  simp [hexDigits, h]

theorem hexDigits_digit (c : Char) (cs : List Char) (acc d : Nat) (h : hexVal c = some d) :
    hexDigits (c :: cs) acc = hexDigits cs (16 * acc + d) := by
  simp [hexDigits, h]

/-- On `0x` followed by a character that is no hexadecimal digit `strtol` gives 0. -/
theorem strtol16_0x_none (c0 : Char) (rest : List Char) (h0 : hexVal c0 = none) :
    strtol16 ('0' :: 'x' :: c0 :: rest) = 0 := by
  have hsp : isspace '0' = false := by decide
  have hx : hexVal 'x' = none := by decide
  have hz : hexVal '0' = some 0 := by decide
  simp [strtol16, List.dropWhile, hsp, strtolSign, strtolSkip0x, h0, hexDigits, hx, hz]

/-- On `0x`, one hexadecimal digit, then another character `strtol` gives the digit. -/
theorem strtol16_0x_one (c0 c1 : Char) (rest : List Char) (d : Nat)
    (h0 : hexVal c0 = some d) (h1 : hexVal c1 = none) :
    strtol16 ('0' :: 'x' :: c0 :: c1 :: rest) = (d : Int) := by
  have hsp : isspace '0' = false := by decide
  have hd := hexVal_lt c0 d h0
  have hle : d ≤ LONG_MAX := by unfold LONG_MAX; omega
  simp [strtol16, List.dropWhile, hsp, strtolSign, strtolSkip0x, h0, h1, hexDigits, hle]

/-- On `0x`, two hexadecimal digits, then another character `strtol` gives their value. -/
theorem strtol16_0x_two (c0 c1 c2 : Char) (rest : List Char) (d0 d1 : Nat)
    (h0 : hexVal c0 = some d0) (h1 : hexVal c1 = some d1) (h2 : hexVal c2 = none) :
    strtol16 ('0' :: 'x' :: c0 :: c1 :: c2 :: rest) = ((16 * d0 + d1 : Nat) : Int) := by
  have hsp : isspace '0' = false := by decide
  have hd0 := hexVal_lt c0 d0 h0
  have hd1 := hexVal_lt c1 d1 h1
  have hle : 16 * d0 + d1 ≤ LONG_MAX := by unfold LONG_MAX; omega
  simp [strtol16, List.dropWhile, hsp, strtolSign, strtolSkip0x, h0, h1, h2, hexDigits, hle]

theorem hexVal_of_isspace (c : Char) (h : isspace c = true) : hexVal c = none := by
  unfold isspace at h
  simp only [Bool.or_eq_true, Bool.and_eq_true, decide_eq_true_eq] at h
  unfold hexVal
  rw [if_neg (by omega), if_neg (by omega), if_neg (by omega)]

/-- On a character other than `0` followed by `x`, `strtol` gives the value of that
character when it is a hexadecimal digit, 0 otherwise (white space and a sign are skipped,
and the `x` that follows is no digit). -/
theorem strtol16_cx (c0 c2 : Char) (rest : List Char) (h : c0 ≠ '0') :
    strtol16 (c0 :: 'x' :: c2 :: rest) = ((hexVal c0).getD 0 : Nat) := by
  have hx : hexVal 'x' = none := by decide
  have hxs : isspace 'x' = false := by decide
  have hm : hexVal '-' = none := by decide
  have hp : hexVal '+' = none := by decide
  have hxm : ('x' = '-') = False := by decide
  have hxp : ('x' = '+') = False := by decide
  have hx0 : ('x' = '0') = False := by decide
  by_cases hs : isspace c0 = true
  · have h0 := hexVal_of_isspace c0 hs
    cases rest with
    | nil => simp [strtol16, List.dropWhile, hs, hxs, strtolSign, strtolSkip0x, hexDigits, hx,
        h0, hxm, hxp, hx0]
    | cons c3 r => simp [strtol16, List.dropWhile, hs, hxs, strtolSign, strtolSkip0x,
        hexDigits, hx, h0, hxm, hxp, hx0]
  · simp only [Bool.not_eq_true] at hs
    by_cases hneg : c0 = '-'
    · subst hneg
      cases rest with
      | nil => simp [strtol16, List.dropWhile, hs, strtolSign, strtolSkip0x, hexDigits, hx, hm]
      | cons c3 r =>
        simp [strtol16, List.dropWhile, hs, strtolSign, strtolSkip0x, hexDigits, hx, hm, hx0]
    · by_cases hpos : c0 = '+'
      · subst hpos
        cases rest with
        | nil => simp [strtol16, List.dropWhile, hs, strtolSign, strtolSkip0x, hexDigits, hx, hp]
        | cons c3 r =>
          simp [strtol16, List.dropWhile, hs, strtolSign, strtolSkip0x, hexDigits, hx, hp, hx0]
      · cases h0 : hexVal c0 with
        | none =>
          simp [strtol16, List.dropWhile, hs, strtolSign, strtolSkip0x, hexDigits, hx, h0,
            hneg, hpos, h]
        | some d =>
          have hd := hexVal_lt c0 d h0
          have hle : d ≤ LONG_MAX := by unfold LONG_MAX; omega
          simp [strtol16, List.dropWhile, hs, strtolSign, strtolSkip0x, hexDigits, hx, h0,
            hneg, hpos, h, hle]

/-- The contents of `byte[0..3]` for a token taken by the 4-character step. -/
theorem byteCopy_four (tx_rx : List Char) (i : Nat) (hi : i < strlen tx_rx)
    (hx : charAt tx_rx (i + 1) = 'x') :
    byteCopy tx_rx i = [charAt tx_rx i, 'x', charAt tx_rx (i + 2), charAt tx_rx (i + 3)] := by
  unfold byteCopy
  rw [if_pos hx, strncpy_drop tx_rx i 4 (by omega)]
  simp [List.range_succ, hx]

/-- The contents of `byte[0..3]` for a token taken by the 2-character step. -/
theorem byteCopy_two (tx_rx : List Char) (i : Nat) (hi : i < strlen tx_rx)
    (hx : charAt tx_rx (i + 1) ≠ 'x') :
    byteCopy tx_rx i = ['0', 'x', charAt tx_rx i, charAt tx_rx (i + 1)] := by
  have h0 : ('0' = NUL) = False := by decide
  have h1 : ('x' = NUL) = False := by decide
  unfold byteCopy
  rw [if_neg hx, strncpy_drop tx_rx i 2 (by omega)]
  simp [List.range_succ, strncpy, h0, h1]

/-! ## Facts about traces, `send_cmd` and the read loop -/

theorem closes_append (a b : List Event) : closes (a ++ b) = closes a + closes b := by
  simp [closes, List.filter_append]

theorem transfers_append (a b : List Event) : transfers (a ++ b) = transfers a + transfers b := by
  simp [transfers, List.filter_append]

theorem closes_dumpBytes (buf : List Nat) : closes (dumpBytes buf) = 0 := by
  simp [closes, dumpBytes, isClose, List.filter_map]

theorem transfers_dumpBytes (buf : List Nat) : transfers (dumpBytes buf) = 0 := by
  simp [transfers, dumpBytes, isTransfer, List.filter_map]

theorem closes_transferAndDump (answer : Int × List Nat) (fd : Int) (g : Globals) :
    closes (transferAndDump answer fd g).2 = 0 := by
  unfold transferAndDump
  simp only [closes_append, closes_dumpBytes]
  by_cases h : answer.1 < 1 <;> simp [h, closes, isClose]

theorem transfers_transferAndDump (answer : Int × List Nat) (fd : Int) (g : Globals) :
    transfers (transferAndDump answer fd g).2 = 1 := by
  unfold transferAndDump
  simp only [transfers_append, transfers_dumpBytes]
  by_cases h : answer.1 < 1 <;> simp [h, transfers, isTransfer]

/-- The function `send_cmd` returns for every line, and its trace holds one transfer and no
`close`. -/
theorem send_cmd_total (stack : List Char) (message : Descriptor → List Nat → Int × List Nat)
    (fd : Int) (tx_rx : List Char) (g : Globals) :
    ∃ r, send_cmd stack message fd tx_rx g = some r ∧ closes r.2 = 0 ∧ transfers r.2 = 1 := by
  obtain ⟨st, hst⟩ := parse_total tx_rx stack g.tx_buffer
  have h : send_cmd stack message fd tx_rx g
      = some (transferAndDump
          (message g.trx st.tx_buffer) fd
          { g with tx_buffer := st.tx_buffer, rx_buffer := resetBuffer g.rx_buffer }) := by
    simp only [send_cmd, hst]
  exact ⟨_, h, closes_transferAndDump _ _ _, transfers_transferAndDump _ _ _⟩

/-- The read loop leaves at the first line that starts with `q`: if the strings left in
`cmd` by the first `n` reads do not start with `q` and the next one does, the loop exits
with code 0 after the prompt for that line, and `close` is the only event after it. -/
theorem mainLoop_quit (dev : Device) (fd : Int) (extra : Nat) :
    ∀ (n : Nat) (cmd stdin : List Char) (calls : Nat) (g : Globals) (trace : List Event),
      (∀ k, k ≤ n → charAt (readN k cmd stdin).1 0 ≠ 'q') →
      charAt (readN (n + 1) cmd stdin).1 0 = 'q' →
      ∃ t, mainLoop dev fd (n + 1 + extra) cmd stdin calls g trace
          = Outcome.exited 0 (trace ++ t ++ [Event.print promptText, Event.close fd]) ∧
        closes t = 0 := by
  intro n
  induction n with
  | zero =>
    intro cmd stdin calls g trace hpre hq
    have h0 : charAt cmd 0 ≠ 'q' := hpre 0 (Nat.le_refl 0)
    have h1 : charAt (fgets cmd stdin).1 0 = 'q' := hq
    refine ⟨[], ?_, rfl⟩
    rw [show 0 + 1 + extra = extra + 1 by omega, mainLoop]
    simp [h0, h1, closeAndExit]
  | succ n ih =>
    intro cmd stdin calls g trace hpre hq
    have h0 : charAt cmd 0 ≠ 'q' := hpre 0 (Nat.zero_le _)
    have h1 : charAt (fgets cmd stdin).1 0 ≠ 'q' := hpre 1 (by omega)
    have hpre' : ∀ k, k ≤ n →
        charAt (readN k (fgets cmd stdin).1 (fgets cmd stdin).2).1 0 ≠ 'q' := by
      intro k hk
      exact hpre (k + 1) (by omega)
    have hq' : charAt (readN (n + 1) (fgets cmd stdin).1 (fgets cmd stdin).2).1 0 = 'q' := hq
    rw [show n + 1 + 1 + extra = (n + 1 + extra) + 1 by omega, mainLoop]
    simp only [h0, h1, if_false]
    by_cases hsend : charAt (fgets cmd stdin).1 0 ≠ '\n' ∧ charAt (fgets cmd stdin).1 0 ≠ NUL
    · obtain ⟨r, hr, hcl, _⟩ := send_cmd_total (dev.stack calls) (dev.message calls) fd
        (fgets cmd stdin).1 g
      rw [if_pos hsend]
      simp only [hr]
      obtain ⟨t, ht, htc⟩ := ih (fgets cmd stdin).1 (fgets cmd stdin).2 (calls + 1) r.1
        (trace ++ [Event.print promptText] ++ r.2) hpre' hq'
      refine ⟨[Event.print promptText] ++ r.2 ++ t, ?_, ?_⟩
      · rw [ht]
        simp only [List.append_assoc]
      · rw [closes_append, closes_append, hcl, htc]
        rfl
    · rw [if_neg hsend]
      obtain ⟨t, ht, htc⟩ := ih (fgets cmd stdin).1 (fgets cmd stdin).2 calls g
        (trace ++ [Event.print promptText]) hpre' hq'
      refine ⟨[Event.print promptText] ++ t, ?_, ?_⟩
      · rw [ht]
        simp only [List.append_assoc]
      · rw [closes_append, htc]
        rfl

theorem resetBuffer_eq (buf : List Nat) (hlen : buf.length = BUFFER_SIZE) :
    resetBuffer buf = [0, 0, 0, 0, 0, 0] := by
  match buf, hlen with
  | [b0, b1, b2, b3, b4, b5], _ => rfl

/-! ## Lines of valid tokens (towards C1) -/

theorem strlen_of_noNul (s : List Char) (h : ∀ c ∈ s, c ≠ NUL) : strlen s = s.length := by
  induction s with
  | nil => rfl
  | cons c cs ih =>
    have hc : c ≠ NUL := h c (by simp)
    simp only [strlen, hc, if_false, List.length_cons]
    rw [ih (fun d hd => h d (by simp [hd]))]

theorem charAt_of_noNul (s : List Char) (h : ∀ c ∈ s, c ≠ NUL) (i j : Nat) :
    charAt s (i + j) = (s.drop i).getD j NUL := by
  unfold charAt
  rw [strlen_of_noNul s h]
  by_cases hij : i + j < s.length
  · simp [hij, List.getD_eq_getElem?_getD, List.getElem?_drop]
  · have : s.length ≤ i + j := by omega
    simp [hij, List.getD_eq_getElem?_getD, List.getElem?_drop, List.getElem?_eq_none this]

theorem hexVal_NUL : hexVal NUL = none := by decide

theorem ne_NUL_of_hexVal (c : Char) (h : (hexVal c).isSome = true) : c ≠ NUL := by
  intro hc
  subst hc
  simp [hexVal_NUL] at h

theorem ne_x_of_hexVal (c : Char) (h : (hexVal c).isSome = true) : c ≠ 'x' := by
  intro hc
  subst hc
  have : hexVal 'x' = none := by decide
  simp [this] at h

theorem isSep_ne_NUL (c : Char) (h : isSep c = true) : c ≠ NUL := by
  intro hc
  subst hc
  exact absurd h (by decide)

theorem isSep_ne_x (c : Char) (h : isSep c = true) : c ≠ 'x' := by
  intro hc
  subst hc
  exact absurd h (by decide)

theorem hexVal_of_isSep (c : Char) (h : isSep c = true) : hexVal c = none := by
  simp only [isSep, Bool.or_eq_true, decide_eq_true_eq] at h
  rcases h with h | h <;> subst h <;> decide

theorem not_isSep_of_hexVal (c : Char) (h : (hexVal c).isSome = true) :
    ¬ (c = ' ' ∨ c = '\n') := by
  intro hc
  have hs : isSep c = true := by simp [isSep, hc]
  simp [hexVal_of_isSep c hs] at h

theorem Token.chars_noNul (t : Token) (h : t.valid = true) : ∀ c ∈ t.chars, c ≠ NUL := by
  have h0 : '0' ≠ NUL := by decide
  have hx : 'x' ≠ NUL := by decide
  intro c hc
  cases t with
  | bare1 d =>
    simp only [Token.chars, List.mem_singleton] at hc
    subst hc
    exact ne_NUL_of_hexVal _ h
  | bare2 d1 d2 =>
    simp only [Token.valid, Bool.and_eq_true] at h
    simp only [Token.chars, List.mem_cons, List.mem_singleton, List.not_mem_nil, or_false] at hc
    rcases hc with hc | hc <;> subst hc
    · exact ne_NUL_of_hexVal _ h.1
    · exact ne_NUL_of_hexVal _ h.2
  | hex1 d =>
    simp only [Token.chars, List.mem_cons, List.mem_singleton, List.not_mem_nil, or_false] at hc
    rcases hc with hc | hc | hc <;> subst hc
    · exact h0
    · exact hx
    · exact ne_NUL_of_hexVal _ h
  | hex2 d1 d2 =>
    simp only [Token.valid, Bool.and_eq_true] at h
    simp only [Token.chars, List.mem_cons, List.mem_singleton, List.not_mem_nil, or_false] at hc
    rcases hc with hc | hc | hc | hc <;> subst hc
    · exact h0
    · exact hx
    · exact ne_NUL_of_hexVal _ h.1
    · exact ne_NUL_of_hexVal _ h.2

theorem render_noNul (items : List (Token × List Char)) (h : validItems items = true) :
    ∀ c ∈ render items, c ≠ NUL := by
  induction items with
  | nil => simp [render]
  | cons item rest ih =>
    simp only [validItems, Bool.and_eq_true, List.all_eq_true] at h
    obtain ⟨⟨⟨hv, hsep⟩, _⟩, hrest⟩ := h
    intro c hc
    simp only [render, List.mem_append] at hc
    rcases hc with (hc | hc) | hc
    · exact Token.chars_noNul _ hv c hc
    · exact isSep_ne_NUL c (hsep c hc)
    · exact ih hrest c hc

theorem fillFrom_of_length_le (vals : List Nat) :
    ∀ (tx : List Nat) (buf_i : Nat), tx.length ≤ buf_i → fillFrom tx buf_i vals = tx := by
  induction vals with
  | nil => intro tx buf_i _; rfl
  | cons v vs ih =>
    intro tx buf_i h
    rw [fillFrom, List.set_eq_of_length_le h]
    exact ih tx (buf_i + 1) (by omega)

theorem drop_add_eq (s : List Char) (i n : Nat) : s.drop (i + n) = (s.drop i).drop n := by
  rw [List.drop_drop, Nat.add_comm]

theorem render_eq_nil (items : List (Token × List Char)) (h : render items = []) :
    items = [] := by
  cases items with
  | nil => rfl
  | cons item rest =>
    obtain ⟨t, after⟩ := item
    cases t <;> simp [render, Token.chars] at h

/-- The byte stored for `0x`, one hexadecimal digit and a character that is none. -/
theorem byteValue_one (c0 c1 : Char) (stack : List Char) (h0 : (hexVal c0).isSome = true)
    (h1 : hexVal c1 = none) :
    toUint8 (strtol16 (['0', 'x', c0, c1] ++ stack)) = (hexVal c0).getD 0 := by
  obtain ⟨d, hd⟩ := Option.isSome_iff_exists.mp h0
  simp only [List.cons_append, List.nil_append]
  rw [strtol16_0x_one c0 c1 stack d hd h1, toUint8_natCast, hd]
  have := hexVal_lt c0 d hd
  simp only [Option.getD_some]
  omega

/-- The byte stored for `0x` and two hexadecimal digits when the scratch memory after them
does not go on with a hexadecimal digit. -/
theorem byteValue_two (c0 c1 : Char) (stack : List Char) (h0 : (hexVal c0).isSome = true)
    (h1 : (hexVal c1).isSome = true) (hstack : stopsAtByte4 stack = true) :
    toUint8 (strtol16 (['0', 'x', c0, c1] ++ stack))
      = 16 * (hexVal c0).getD 0 + (hexVal c1).getD 0 := by
  obtain ⟨d0, hd0⟩ := Option.isSome_iff_exists.mp h0
  obtain ⟨d1, hd1⟩ := Option.isSome_iff_exists.mp h1
  have hl0 := hexVal_lt c0 d0 hd0
  have hl1 := hexVal_lt c1 d1 hd1
  have hval : strtol16 (['0', 'x', c0, c1] ++ stack) = ((16 * d0 + d1 : Nat) : Int) := by
    cases stack with
    | nil =>
      have hsp : isspace '0' = false := by decide
      have hle : 16 * d0 + d1 ≤ LONG_MAX := by unfold LONG_MAX; omega
      simp [strtol16, List.dropWhile, hsp, strtolSign, strtolSkip0x, hd0, hd1, hexDigits, hle]
    | cons c cs =>
      have hc : hexVal c = none := by
        simpa [stopsAtByte4, Option.isNone_iff_eq_none] using hstack
      exact strtol16_0x_two c0 c1 c cs d0 d1 hd0 hd1 hc
  rw [hval, toUint8_natCast, hd0, hd1]
  simp only [Option.getD_some]
  omega

/-- The fields of the state after an iteration that does not skip a separator. -/
theorem parseBody_noskip (s stack : List Char) (st : ParseState) (hi : st.i < strlen s)
    (hskip : ¬ (charAt s st.i = ' ' ∨ charAt s st.i = '\n')) :
    (parseBody s stack st).buf_i = st.buf_i + 1 ∧
    (charAt s (st.i + 1) = 'x' →
      (parseBody s stack st).i = st.i + 4 ∧
      (parseBody s stack st).tx_buffer = st.tx_buffer.set st.buf_i
        (toUint8 (strtol16 ([charAt s st.i, 'x', charAt s (st.i + 2),
          charAt s (st.i + 3)] ++ stack)))) ∧
    (charAt s (st.i + 1) ≠ 'x' →
      (parseBody s stack st).i = st.i + 2 ∧
      (parseBody s stack st).tx_buffer = st.tx_buffer.set st.buf_i
        (toUint8 (strtol16 (['0', 'x', charAt s st.i, charAt s (st.i + 1)] ++ stack)))) := by
  refine ⟨?_, ?_, ?_⟩
  · simp only [parseBody, hskip, if_false]
  · intro hx
    simp only [parseBody, hskip, if_false, hx, if_true, tokenByte]
    rw [byteCopy_four s st.i hi hx]
    exact ⟨trivial, rfl⟩
  · intro hx
    simp only [parseBody, hskip, if_false, hx, tokenByte]
    rw [byteCopy_two s st.i hi hx]
    exact ⟨trivial, rfl⟩

/-- One iteration at the start of a valid token stores the value of the token and moves
to the separators after it (one of them already consumed after a one-digit token). -/
theorem parseBody_token (s stack : List Char) (hs : ∀ c ∈ s, c ≠ NUL)
    (hstack : stopsAtByte4 stack = true) (st : ParseState) (t : Token) (after : List Char)
    (rest : List (Token × List Char)) (hv : validItems ((t, after) :: rest) = true)
    (hR : s.drop st.i = render ((t, after) :: rest)) :
    ∃ seps', (∀ c ∈ seps', isSep c = true) ∧
      s.drop (parseBody s stack st).i = seps' ++ render rest ∧
      (seps' ++ render rest).length < (render ((t, after) :: rest)).length ∧
      (parseBody s stack st).buf_i = st.buf_i + 1 ∧
      (parseBody s stack st).tx_buffer = st.tx_buffer.set st.buf_i t.value := by
  simp only [validItems, Bool.and_eq_true, List.all_eq_true, Bool.or_eq_true,
    Bool.not_eq_true', List.isEmpty_iff] at hv
  obtain ⟨⟨⟨hvt, hsep⟩, hne⟩, _⟩ := hv
  have hi : st.i < strlen s := by
    rw [strlen_of_noNul s hs]
    by_contra hcon
    rw [List.drop_eq_nil_of_le (by omega)] at hR
    cases t <;> simp [render, Token.chars] at hR
  have hch : ∀ j, charAt s (st.i + j) = (render ((t, after) :: rest)).getD j NUL := by
    intro j
    rw [charAt_of_noNul s hs, hR]
  have h0sep : ¬ ('0' = ' ' ∨ '0' = '\n') := by decide
  have hnx : NUL ≠ 'x' := by decide
  cases t with
  | bare1 d =>
    have hskip : ¬ (charAt s st.i = ' ' ∨ charAt s st.i = '\n') := by
      have h := hch 0
      simp only [Nat.add_zero, render, Token.chars] at h
      rw [h]
      exact not_isSep_of_hexVal d hvt
    have hc0 : charAt s st.i = d := by
      have h := hch 0
      simpa [render, Token.chars] using h
    obtain ⟨hb, _, h2⟩ := parseBody_noskip s stack st hi hskip
    cases after with
    | nil =>
      have hrest : rest = [] := by
        rcases hne with h | h
        · exact h
        · simp at h
      subst hrest
      have hc1 : charAt s (st.i + 1) = NUL := by
        have h := hch 1
        simpa [render, Token.chars] using h
      obtain ⟨hi2, htx⟩ := h2 (by rw [hc1]; exact hnx)
      refine ⟨[], by simp, ?_, by simp [render, Token.chars], hb, ?_⟩
      · rw [hi2, drop_add_eq, hR]
        simp [render, Token.chars]
      · rw [htx, hc0, hc1, byteValue_one d NUL stack hvt hexVal_NUL]
        rfl
    | cons a as =>
      have ha : isSep a = true := hsep a (by simp)
      have hc1 : charAt s (st.i + 1) = a := by
        have h := hch 1
        simpa [render, Token.chars] using h
      obtain ⟨hi2, htx⟩ := h2 (by rw [hc1]; exact isSep_ne_x a ha)
      refine ⟨as, fun c hc => hsep c (by simp [hc]), ?_, by simp [render, Token.chars]; omega, hb, ?_⟩
      · rw [hi2, drop_add_eq, hR]
        simp [render, Token.chars]
      · rw [htx, hc0, hc1, byteValue_one d a stack hvt (hexVal_of_isSep a ha)]
        rfl
  | bare2 d1 d2 =>
    simp only [Token.valid, Bool.and_eq_true] at hvt
    have hc0 : charAt s st.i = d1 := by
      have h := hch 0
      simpa [render, Token.chars] using h
    have hskip : ¬ (charAt s st.i = ' ' ∨ charAt s st.i = '\n') := by
      rw [hc0]
      exact not_isSep_of_hexVal d1 hvt.1
    have hc1 : charAt s (st.i + 1) = d2 := by
      have h := hch 1
      simpa [render, Token.chars] using h
    obtain ⟨hb, _, h2⟩ := parseBody_noskip s stack st hi hskip
    obtain ⟨hi2, htx⟩ := h2 (by rw [hc1]; exact ne_x_of_hexVal d2 hvt.2)
    refine ⟨after, hsep, ?_, by simp [render, Token.chars]; omega, hb, ?_⟩
    · rw [hi2, drop_add_eq, hR]
      simp [render, Token.chars]
    · rw [htx, hc0, hc1, byteValue_two d1 d2 stack hvt.1 hvt.2 hstack]
      rfl
  | hex1 d =>
    have hc0 : charAt s st.i = '0' := by
      have h := hch 0
      simpa [render, Token.chars] using h
    have hskip : ¬ (charAt s st.i = ' ' ∨ charAt s st.i = '\n') := by
      rw [hc0]
      exact h0sep
    have hc1 : charAt s (st.i + 1) = 'x' := by
      have h := hch 1
      simpa [render, Token.chars] using h
    have hc2 : charAt s (st.i + 2) = d := by
      have h := hch 2
      simpa [render, Token.chars] using h
    obtain ⟨hb, h4, _⟩ := parseBody_noskip s stack st hi hskip
    obtain ⟨hi4, htx⟩ := h4 hc1
    cases after with
    | nil =>
      have hrest : rest = [] := by
        rcases hne with h | h
        · exact h
        · simp at h
      subst hrest
      have hc3 : charAt s (st.i + 3) = NUL := by
        have h := hch 3
        simpa [render, Token.chars] using h
      refine ⟨[], by simp, ?_, by simp [render, Token.chars], hb, ?_⟩
      · rw [hi4, drop_add_eq, hR]
        simp [render, Token.chars]
      · rw [htx, hc0, hc2, hc3, byteValue_one d NUL stack hvt hexVal_NUL]
        rfl
    | cons a as =>
      have ha : isSep a = true := hsep a (by simp)
      have hc3 : charAt s (st.i + 3) = a := by
        have h := hch 3
        simpa [render, Token.chars] using h
      refine ⟨as, fun c hc => hsep c (by simp [hc]), ?_, by simp [render, Token.chars]; omega, hb, ?_⟩
      · rw [hi4, drop_add_eq, hR]
        simp [render, Token.chars]
      · rw [htx, hc0, hc2, hc3, byteValue_one d a stack hvt (hexVal_of_isSep a ha)]
        rfl
  | hex2 d1 d2 =>
    simp only [Token.valid, Bool.and_eq_true] at hvt
    have hc0 : charAt s st.i = '0' := by
      have h := hch 0
      simpa [render, Token.chars] using h
    have hskip : ¬ (charAt s st.i = ' ' ∨ charAt s st.i = '\n') := by
      rw [hc0]
      exact h0sep
    have hc1 : charAt s (st.i + 1) = 'x' := by
      have h := hch 1
      simpa [render, Token.chars] using h
    have hc2 : charAt s (st.i + 2) = d1 := by
      have h := hch 2
      simpa [render, Token.chars] using h
    have hc3 : charAt s (st.i + 3) = d2 := by
      have h := hch 3
      simpa [render, Token.chars] using h
    obtain ⟨hb, h4, _⟩ := parseBody_noskip s stack st hi hskip
    obtain ⟨hi4, htx⟩ := h4 hc1
    refine ⟨after, hsep, ?_, by simp [render, Token.chars]; omega, hb, ?_⟩
    · rw [hi4, drop_add_eq, hR]
      simp [render, Token.chars]
    · rw [htx, hc0, hc2, hc3, byteValue_two d1 d2 stack hvt.1 hvt.2 hstack]
      rfl

theorem fillFrom_zeros (vals : List Nat) :
    ∀ (pre : List Nat) (m : Nat),
      fillFrom (pre ++ List.replicate m 0) pre.length vals
        = pre ++ vals.take m ++ List.replicate (m - vals.length) 0 := by
  induction vals with
  | nil =>
    intro pre m
    simp [fillFrom]
  | cons v vs ih =>
    intro pre m
    cases m with
    | zero =>
      simp only [List.replicate_zero, List.append_nil, fillFrom, List.take_zero, Nat.zero_sub]
      rw [List.set_eq_of_length_le (Nat.le_refl _)]
      exact fillFrom_of_length_le vs pre (pre.length + 1) (by omega)
    | succ k =>
      have hset : (pre ++ List.replicate (k + 1) 0).set pre.length v
          = (pre ++ [v]) ++ List.replicate k 0 := by
        simp [List.replicate_succ, List.set_append_right]
      have hl : pre.length + 1 = (pre ++ [v]).length := by simp
      rw [fillFrom, hset, hl, ih (pre ++ [v]) k]
      simp [List.take_succ_cons]

/-- The parse loop on the rest of a line of valid tokens, when `strtol` stops at `byte[4]`:
it ends, and the buffer is the one obtained by storing the token values in order. -/
theorem parseLoop_valid (s stack : List Char) (hs : ∀ c ∈ s, c ≠ NUL)
    (hstack : stopsAtByte4 stack = true) :
    ∀ (fuel : Nat) (st : ParseState) (seps : List Char) (items : List (Token × List Char)),
      (∀ c ∈ seps, isSep c = true) → validItems items = true →
      s.drop st.i = seps ++ render items →
      (seps ++ render items).length < fuel →
      st.tx_buffer.length = BUFFER_SIZE →
      ∃ st', parseLoop s stack fuel st = some st' ∧
        st'.tx_buffer = fillFrom st.tx_buffer st.buf_i (items.map (fun it => it.1.value)) := by
  intro fuel
  induction fuel with
  | zero =>
    intro st seps items _ _ _ hlt _
    omega
  | succ n ih =>
    intro st seps items hseps hitems hR hlt hlen
    rw [parseLoop]
    by_cases hc : st.i < strlen s ∧ st.buf_i < BUFFER_SIZE
    · rw [if_pos hc]
      cases seps with
      | cons c seps' =>
        have hcsep : isSep c = true := hseps c (by simp)
        have hc0 : charAt s st.i = c := by
          have h := charAt_of_noNul s hs st.i 0
          rw [hR] at h
          simpa using h
        have hskip : charAt s st.i = ' ' ∨ charAt s st.i = '\n' := by
          rw [hc0]
          simpa [isSep] using hcsep
        have hbody : parseBody s stack { st with reads := st.reads ++ List.range (strlen s + 1) }
            = { st with i := st.i + 1,
                        reads := st.reads ++ List.range (strlen s + 1) ++ [st.i] } := by
          simp only [parseBody, hskip, if_true]
        rw [hbody]
        have hdrop : s.drop (st.i + 1) = seps' ++ render items := by
          rw [drop_add_eq, hR]
          simp
        obtain ⟨st', h1, h2⟩ := ih
          { st with i := st.i + 1, reads := st.reads ++ List.range (strlen s + 1) ++ [st.i] }
          seps' items (fun d hd => hseps d (by simp [hd])) hitems hdrop
          (by simp only [List.length_append, List.length_cons] at hlt ⊢; omega) hlen
        exact ⟨st', h1, h2⟩
      | nil =>
        cases items with
        | nil =>
          have hlen0 := strlen_of_noNul s hs
          have hdl := congrArg List.length hR
          simp only [List.length_drop, render, List.append_nil, List.length_nil] at hdl
          omega
        | cons item rest =>
          obtain ⟨t, after⟩ := item
          have hrest : validItems rest = true := by
            simp only [validItems, Bool.and_eq_true] at hitems
            exact hitems.2
          obtain ⟨seps', hs', hdrop, hshort, hb, htx⟩ := parseBody_token s stack hs hstack
            { st with reads := st.reads ++ List.range (strlen s + 1) } t after rest hitems
            (by simpa using hR)
          obtain ⟨st', h1, h2⟩ := ih
            (parseBody s stack { st with reads := st.reads ++ List.range (strlen s + 1) })
            seps' rest hs' hrest hdrop
            (by simp only [List.nil_append] at hlt; omega)
            (by rw [htx, List.length_set]; exact hlen)
          refine ⟨st', h1, ?_⟩
          rw [h2, htx, hb]
          rfl
    · rw [if_neg hc]
      refine ⟨_, rfl, ?_⟩
      by_cases hb : st.buf_i < BUFFER_SIZE
      · have hi : ¬ st.i < strlen s := fun h => hc ⟨h, hb⟩
        rw [strlen_of_noNul s hs] at hi
        rw [List.drop_eq_nil_of_le (by omega)] at hR
        have hnil : render items = [] := by
          have := List.append_eq_nil.mp hR.symm
          exact this.2
        rw [render_eq_nil items hnil]
        rfl
      · have hle : st.tx_buffer.length ≤ st.buf_i := by omega
        exact (fillFrom_of_length_le _ st.tx_buffer st.buf_i hle).symm

/-- The transmit buffer when the scratch memory is terminated: for every prior content of
the buffer and every line made of valid tokens (one or two hexadecimal digits, bare or
after `0x`) separated by spaces or newlines, with any separators before the first and
after the last token, if `byte[4]` does not hold a hexadecimal digit then the parse returns
and the transmit buffer holds the values of the first six tokens in order, then zeros up
to length six. -/
theorem parse_valid_line (lead : List Char) (items : List (Token × List Char))
    (stack : List Char) (tx_buffer : List Nat)
    (hlead : ∀ c ∈ lead, isSep c = true) (hitems : validItems items = true)
    (hstack : stopsAtByte4 stack = true) (hlen : tx_buffer.length = BUFFER_SIZE) :
    ∃ st, parse (lead ++ render items) stack tx_buffer = some st ∧
      st.tx_buffer = expectedBuffer (items.map (fun it => it.1.value)) := by
  have hs : ∀ c ∈ lead ++ render items, c ≠ NUL := by
    intro c hc
    rcases List.mem_append.mp hc with h | h
    · exact isSep_ne_NUL c (hlead c h)
    · exact render_noNul items hitems c h
  obtain ⟨st, h1, h2⟩ := parseLoop_valid (lead ++ render items) stack hs hstack
    (strlen (lead ++ render items) + 1)
    { i := 0, buf_i := 0, tx_buffer := resetBuffer tx_buffer, reads := [], writes := [] }
    lead items hlead hitems (by simp)
    (by rw [strlen_of_noNul _ hs]; omega)
    (by simp only [resetBuffer_eq tx_buffer hlen]; rfl)
  refine ⟨st, h1, ?_⟩
  rw [h2]
  simp only [resetBuffer_eq tx_buffer hlen]
  have := fillFrom_zeros (items.map (fun it => it.1.value)) [] 6
  simpa [expectedBuffer, BUFFER_SIZE] using this

/-- The line `0x1a 2b 0x03` as a line of valid tokens: with a NUL in `byte[4]` the buffer
is `1a 2b 03 00 00 00`. -/
theorem parse_valid_line_example :
    ([] ++ render [(Token.hex2 '1' 'a', [' ']), (Token.bare2 '2' 'b', [' ']),
        (Token.hex2 '0' '3', [])]) = "0x1a 2b 0x03".toList ∧
    ∃ st, parse ([] ++ render [(Token.hex2 '1' 'a', [' ']), (Token.bare2 '2' 'b', [' ']),
          (Token.hex2 '0' '3', [])]) [NUL] [9, 9, 9, 9, 9, 9] = some st ∧
      st.tx_buffer = expectedBuffer ([(Token.hex2 '1' 'a', [' ']), (Token.bare2 '2' 'b', [' ']),
          (Token.hex2 '0' '3', [])].map (fun it => it.1.value)) :=
  ⟨by decide,
   parse_valid_line [] [(Token.hex2 '1' 'a', [' ']), (Token.bare2 '2' 'b', [' ']),
     (Token.hex2 '0' '3', [])] [NUL] [9, 9, 9, 9, 9, 9] (by simp) (by decide) (by decide)
     (by decide)⟩

/-- After `send_cmd` on a line of valid tokens the transmit buffer is the one the
specification describes, whenever `byte[4]` does not hold a hexadecimal digit. -/
theorem send_cmd_valid_line (lead : List Char) (items : List (Token × List Char))
    (stack : List Char) (message : Descriptor → List Nat → Int × List Nat) (fd : Int)
    (g : Globals)
    (hlead : ∀ c ∈ lead, isSep c = true) (hitems : validItems items = true)
    (hstack : stopsAtByte4 stack = true) (hlen : g.tx_buffer.length = BUFFER_SIZE) :
    ∃ r, send_cmd stack message fd (lead ++ render items) g = some r ∧
      r.1.tx_buffer = expectedBuffer (items.map (fun it => it.1.value)) := by
  obtain ⟨st, hst, htx⟩ := parse_valid_line lead items stack g.tx_buffer hlead hitems hstack hlen
  have h : send_cmd stack message fd (lead ++ render items) g
      = some (transferAndDump
          (message g.trx st.tx_buffer) fd
          { g with tx_buffer := st.tx_buffer, rx_buffer := resetBuffer g.rx_buffer }) := by
    simp only [send_cmd, hst]
  exact ⟨_, h, htx⟩

/-! ## Claims -/

/-- C10: for every NUL-terminated line (also one that ends inside a token), every scratch
memory and every prior buffer, the parse loop of `send_cmd` ends; each index of `tx_rx` it
reads is at most `strlen tx_rx` (the position of the terminator), and each index of
`tx_buffer` it writes is below 6. -/
theorem parse_reads_in_bounds (tx_rx stack : List Char) (tx_buffer : List Nat) :
    ∃ st, parse tx_rx stack tx_buffer = some st ∧
      (∀ r ∈ st.reads, r ≤ strlen tx_rx) ∧ (∀ w ∈ st.writes, w < 6) := by
  exact parseLoop_ends tx_rx stack (strlen tx_rx)
    { i := 0, buf_i := 0, tx_buffer := resetBuffer tx_buffer, reads := [], writes := [] }
    (by simp) (by simp) (by simp)

/-! ### C9: the choice between the 4-character and the 2-character step -/

/-- C9, as stated, fails on the line `1x23`: at position 0 (no space, no newline) the code
takes the 4-character step and stores 0x01, although the character two positions ahead is
`2`, not `x`, and the current and next characters are `1x`, not `0x`; both readings of the
stated test give the 2-character step there. -/
theorem step_test_counterexample :
    charAt "1x23".toList 0 ≠ ' ' ∧ charAt "1x23".toList 0 ≠ '\n' ∧
    (parseBody "1x23".toList [] parseStart).i = 4 ∧
    (parseBody "1x23".toList [] parseStart).tx_buffer = [1, 0, 0, 0, 0, 0] ∧
    specStepTwoAhead "1x23".toList 0 = 2 ∧
    specStepZeroX "1x23".toList 0 = 2 := by
  decide

/-- C9, amended: at every position of the line that holds neither a space nor a newline,
the parser takes the 4-character step exactly when the NEXT character (`tx_rx[i+1]`) is
`x`, whatever the current character is, and stores the conversion of the four characters
from `i` on; otherwise it takes the 2-character step and stores the conversion of `0x`
followed by the two characters from `i` on.  Either way exactly one byte is stored, in the
next free slot. -/
theorem parseBody_step (tx_rx stack : List Char) (st : ParseState)
    (hi : st.i < strlen tx_rx)
    (hs : charAt tx_rx st.i ≠ ' ') (hn : charAt tx_rx st.i ≠ '\n') :
    (charAt tx_rx (st.i + 1) = 'x' →
      (parseBody tx_rx stack st).i = st.i + 4 ∧
      (parseBody tx_rx stack st).tx_buffer = st.tx_buffer.set st.buf_i
        (toUint8 (strtol16 ([charAt tx_rx st.i, 'x', charAt tx_rx (st.i + 2),
          charAt tx_rx (st.i + 3)] ++ stack)))) ∧
    (charAt tx_rx (st.i + 1) ≠ 'x' →
      (parseBody tx_rx stack st).i = st.i + 2 ∧
      (parseBody tx_rx stack st).tx_buffer = st.tx_buffer.set st.buf_i
        (toUint8 (strtol16 (['0', 'x', charAt tx_rx st.i, charAt tx_rx (st.i + 1)]
          ++ stack)))) ∧
    (parseBody tx_rx stack st).buf_i = st.buf_i + 1 := by
  have hskip : ¬ (charAt tx_rx st.i = ' ' ∨ charAt tx_rx st.i = '\n') := by
    intro h
    rcases h with h | h
    · exact hs h
    · exact hn h
  refine ⟨?_, ?_, ?_⟩
  · intro hx
    simp only [parseBody, hskip, if_false, hx, if_true, tokenByte]
    rw [byteCopy_four tx_rx st.i hi hx]
    exact ⟨trivial, rfl⟩
  · intro hx
    simp only [parseBody, hskip, if_false, hx, tokenByte]
    rw [byteCopy_two tx_rx st.i hi hx]
    exact ⟨trivial, rfl⟩
  · simp only [parseBody, hskip, if_false]

/-- The amended C9 at work: on `1x23 4` the first step takes four characters (next
character `x`), and from position 5 the step takes two. -/
theorem parseBody_step_witness :
    ((charAt "1x23 4".toList (0 + 1) = 'x' →
      (parseBody "1x23 4".toList [] parseStart).i = 0 + 4 ∧
      (parseBody "1x23 4".toList [] parseStart).tx_buffer = parseStart.tx_buffer.set 0
        (toUint8 (strtol16 ([charAt "1x23 4".toList 0, 'x', charAt "1x23 4".toList (0 + 2),
          charAt "1x23 4".toList (0 + 3)] ++ [])))) ∧
    (charAt "1x23 4".toList (0 + 1) ≠ 'x' →
      (parseBody "1x23 4".toList [] parseStart).i = 0 + 2 ∧
      (parseBody "1x23 4".toList [] parseStart).tx_buffer = parseStart.tx_buffer.set 0
        (toUint8 (strtol16 (['0', 'x', charAt "1x23 4".toList 0,
          charAt "1x23 4".toList (0 + 1)] ++ [])))) ∧
    (parseBody "1x23 4".toList [] parseStart).buf_i = 0 + 1) ∧
    (parseBody "1x23 4".toList [] parseStart).i = 4 ∧
    (parseBody "1x23 4".toList [] { parseStart with i := 5, buf_i := 1 }).i = 7 :=
  ⟨parseBody_step "1x23 4".toList [] parseStart (by decide) (by decide) (by decide),
   by decide, by decide⟩

/-! ### C2: malformed tokens -/

/-- C2, as stated, fails on the line `1g`: the token holds the non-hexadecimal character
`g`, and the byte stored in its slot is 0x01, not 0. -/
theorem malformed_token_counterexample :
    hexVal 'g' = none ∧
    (parse "1g".toList [] [0, 0, 0, 0, 0, 0]).map (fun st => (st.tx_buffer, st.writes))
      = some ([1, 0, 0, 0, 0, 0], [0]) := by
  decide

/-- C2, amended: every token the parser consumes is converted without an error (one byte
is stored and the loop goes on), and for a malformed token the byte is the value of the
hexadecimal digits that lead its digit characters — the two characters of a bare token, the
two characters after `0x` of a token that starts with `0x`: 0 when the first of them is no
hexadecimal digit, the value of the first when only the second is none.  A 4-character
token whose first character is not `0` gives the value of that first character when it is
a hexadecimal digit and 0 otherwise.  None of this depends on the scratch memory. -/
theorem tokenByte_malformed (tx_rx stack : List Char) (st : ParseState)
    (hi : st.i < strlen tx_rx)
    (hs : charAt tx_rx st.i ≠ ' ') (hn : charAt tx_rx st.i ≠ '\n') :
    ((parseBody tx_rx stack st).buf_i = st.buf_i + 1 ∧
      (parseBody tx_rx stack st).tx_buffer
        = st.tx_buffer.set st.buf_i (tokenByte tx_rx stack st.i)) ∧
    (charAt tx_rx (st.i + 1) ≠ 'x' → hexVal (charAt tx_rx st.i) = none →
      tokenByte tx_rx stack st.i = 0) ∧
    (charAt tx_rx (st.i + 1) ≠ 'x' → ∀ d, hexVal (charAt tx_rx st.i) = some d →
      hexVal (charAt tx_rx (st.i + 1)) = none → tokenByte tx_rx stack st.i = d) ∧
    (charAt tx_rx st.i = '0' → charAt tx_rx (st.i + 1) = 'x' →
      hexVal (charAt tx_rx (st.i + 2)) = none → tokenByte tx_rx stack st.i = 0) ∧
    (charAt tx_rx st.i = '0' → charAt tx_rx (st.i + 1) = 'x' →
      ∀ d, hexVal (charAt tx_rx (st.i + 2)) = some d →
      hexVal (charAt tx_rx (st.i + 3)) = none → tokenByte tx_rx stack st.i = d) ∧
    (charAt tx_rx st.i ≠ '0' → charAt tx_rx (st.i + 1) = 'x' →
      tokenByte tx_rx stack st.i = (hexVal (charAt tx_rx st.i)).getD 0) := by
  have hskip : ¬ (charAt tx_rx st.i = ' ' ∨ charAt tx_rx st.i = '\n') := by
    intro h
    rcases h with h | h
    · exact hs h
    · exact hn h
  refine ⟨⟨?_, ?_⟩, ?_, ?_, ?_, ?_, ?_⟩
  · simp only [parseBody, hskip, if_false]
  · simp only [parseBody, hskip, if_false]
  · intro hx h0
    unfold tokenByte
    rw [byteCopy_two tx_rx st.i hi hx]
    simp only [List.cons_append, List.nil_append]
    rw [strtol16_0x_none _ _ h0]
    rfl
  · intro hx d h0 h1
    unfold tokenByte
    rw [byteCopy_two tx_rx st.i hi hx]
    simp only [List.cons_append, List.nil_append]
    rw [strtol16_0x_one _ _ _ d h0 h1, toUint8_natCast]
    have := hexVal_lt _ d h0
    omega
  · intro hz hx h2
    unfold tokenByte
    rw [byteCopy_four tx_rx st.i hi hx, hz]
    simp only [List.cons_append, List.nil_append]
    rw [strtol16_0x_none _ _ h2]
    rfl
  · intro hz hx d h2 h3
    unfold tokenByte
    rw [byteCopy_four tx_rx st.i hi hx, hz]
    simp only [List.cons_append, List.nil_append]
    rw [strtol16_0x_one _ _ _ d h2 h3, toUint8_natCast]
    have := hexVal_lt _ d h2
    omega
  · intro hz hx
    unfold tokenByte
    rw [byteCopy_four tx_rx st.i hi hx]
    simp only [List.cons_append, List.nil_append]
    rw [strtol16_cx _ _ _ hz, toUint8_natCast]
    cases h0 : hexVal (charAt tx_rx st.i) with
    | none => rfl
    | some d =>
      have := hexVal_lt _ d h0
      simp only [Option.getD_some]
      omega

/-- The amended C2 at work on the tokens `1g`, `g1`, `0x1g`, `0xg1` and `1x23`, with a
hexadecimal digit waiting in the scratch memory. -/
theorem tokenByte_malformed_witness :
    (0 < strlen "1g".toList ∧ charAt "1g".toList 0 ≠ ' ' ∧ charAt "1g".toList 0 ≠ '\n') ∧
    tokenByte "1g".toList ['f'] 0 = 1 ∧
    tokenByte "g1".toList ['f'] 0 = 0 ∧
    tokenByte "0x1g".toList ['f'] 0 = 1 ∧
    tokenByte "0xg1".toList ['f'] 0 = 0 ∧
    tokenByte "1x23".toList ['f'] 0 = 1 :=
  ⟨⟨by decide, by decide, by decide⟩,
   (tokenByte_malformed "1g".toList ['f'] parseStart (by decide) (by decide) (by decide)).2.2.1
     (by decide) 1 (by decide) (by decide),
   (tokenByte_malformed "g1".toList ['f'] parseStart (by decide) (by decide) (by decide)).2.1
     (by decide) (by decide),
   (tokenByte_malformed "0x1g".toList ['f'] parseStart (by decide) (by decide)
     (by decide)).2.2.2.2.1 (by decide) (by decide) 1 (by decide) (by decide),
   (tokenByte_malformed "0xg1".toList ['f'] parseStart (by decide) (by decide)
     (by decide)).2.2.2.1 (by decide) (by decide) (by decide),
   (tokenByte_malformed "1x23".toList ['f'] parseStart (by decide) (by decide)
     (by decide)).2.2.2.2.2 (by decide) (by decide)⟩

/-! ### C1: the transmit buffer after a line of valid tokens -/

/-- C1 at its own example `0x1a 2b 0x03`, with `tx_buffer` full of nines before the call:
when `byte[4]` holds no hexadecimal digit the buffer after `send_cmd` is
`1a 2b 03 00 00 00`, as the claim says; when the uninitialised `byte[4]` holds the
character `f` (and a NUL follows) `strtol` reads on past the two digits of each token and
the buffer after `send_cmd` is `af bf 3f 00 00 00`.  The line `1 2 3 4` of one-digit tokens
gives `01 02 03 04 00 00` even then. -/
theorem valid_line_unterminated_byte :
    (send_cmd [] (fun _ tx => (1, tx)) 3 "0x1a 2b 0x03".toList
        { initialGlobals with tx_buffer := [9, 9, 9, 9, 9, 9] }).map (fun r => r.1.tx_buffer)
      = some [0x1a, 0x2b, 0x03, 0, 0, 0] ∧
    (send_cmd ['f'] (fun _ tx => (1, tx)) 3 "0x1a 2b 0x03".toList
        { initialGlobals with tx_buffer := [9, 9, 9, 9, 9, 9] }).map (fun r => r.1.tx_buffer)
      = some [0xaf, 0xbf, 0x3f, 0, 0, 0] ∧
    (send_cmd ['f'] (fun _ tx => (1, tx)) 3 "1 2 3 4".toList
        { initialGlobals with tx_buffer := [9, 9, 9, 9, 9, 9] }).map (fun r => r.1.tx_buffer)
      = some [1, 2, 3, 4, 0, 0] := by
  decide

/-! ### C8: `init_spi_device` -/

/-- C8: `init_spi_device` returns `false` exactly when the set-mode or the set-max-speed
`ioctl` reports a non-zero status.  A successful run requests mode 0 and 1,000,000 Hz and,
whatever the descriptor held before, leaves it with both buffers bound, length 6, speed
1,000,000, delay 0 and bits-per-word 0 (two prior states that agree on the fields the
source never assigns end in the same descriptor); running it again after a success, with
any results of the two `ioctl`s, leaves the global state identical. -/
theorem init_spi_device_spec (mode_ret speed_ret : Int) (fd : Int) (g : Globals) :
    ((init_spi_device mode_ret speed_ret fd g).1 = false ↔ (mode_ret ≠ 0 ∨ speed_ret ≠ 0)) ∧
    ((init_spi_device mode_ret speed_ret fd g).1 = true →
      (init_spi_device mode_ret speed_ret fd g).2.2
        = [Event.setMode fd 0, Event.setMaxSpeed fd 1000000] ∧
      (init_spi_device mode_ret speed_ret fd g).2.1.trx
        = { tx_buf := Ptr.tx_buffer, rx_buf := Ptr.rx_buffer, len := 6, speed_hz := 1000000,
            delay_usecs := 0, bits_per_word := 0, rest := g.trx.rest } ∧
      (∀ (g2 : Globals), g2.trx.rest = g.trx.rest →
        (init_spi_device 0 0 fd g2).2.1.trx = (init_spi_device mode_ret speed_ret fd g).2.1.trx) ∧
      (∀ (m s : Int), (init_spi_device m s fd (init_spi_device mode_ret speed_ret fd g).2.1).2.1
        = (init_spi_device mode_ret speed_ret fd g).2.1)) := by
  by_cases hm : mode_ret = 0
  · by_cases hs : speed_ret = 0
    · subst hm
      subst hs
      refine ⟨by simp [init_spi_device], ?_⟩
      intro _
      refine ⟨by simp [init_spi_device, SPI_MODE_0, MAX_SPI_SPEED], ?_, ?_, ?_⟩
      · simp [init_spi_device, MAX_SPI_SPEED, BUFFER_SIZE]
      · intro g2 h2
        simp [init_spi_device, h2]
      · intro m s
        by_cases hm2 : m = 0
        · by_cases hs2 : s = 0
          · simp [init_spi_device, hm2, hs2]
          · simp [init_spi_device, hm2, hs2]
        · simp [init_spi_device, hm2]
    · refine ⟨by simp [init_spi_device, hm, hs], ?_⟩
      intro h
      simp [init_spi_device, hm, hs] at h
  · refine ⟨by simp [init_spi_device, hm], ?_⟩
    intro h
    simp [init_spi_device, hm] at h

/-- C8 at a descriptor full of other values, with both `ioctl`s succeeding. -/
theorem init_spi_device_spec_witness :
    (init_spi_device 0 0 3
        { trx := { tx_buf := Ptr.other 7, rx_buf := Ptr.null, len := 2, speed_hz := 5,
                   delay_usecs := 9, bits_per_word := 8, rest := 0 }
          tx_buffer := [1, 2, 3, 4, 5, 6], rx_buffer := [0, 0, 0, 0, 0, 0] }).1 = true ∧
    (init_spi_device 0 0 3
        { trx := { tx_buf := Ptr.other 7, rx_buf := Ptr.null, len := 2, speed_hz := 5,
                   delay_usecs := 9, bits_per_word := 8, rest := 0 }
          tx_buffer := [1, 2, 3, 4, 5, 6], rx_buffer := [0, 0, 0, 0, 0, 0] }).2.1.trx
      = { tx_buf := Ptr.tx_buffer, rx_buf := Ptr.rx_buffer, len := 6, speed_hz := 1000000,
          delay_usecs := 0, bits_per_word := 0, rest := 0 } :=
  ⟨by decide,
   ((init_spi_device_spec 0 0 3
        { trx := { tx_buf := Ptr.other 7, rx_buf := Ptr.null, len := 2, speed_hz := 5,
                   delay_usecs := 9, bits_per_word := 8, rest := 0 }
          tx_buffer := [1, 2, 3, 4, 5, 6], rx_buffer := [0, 0, 0, 0, 0, 0] }).2
      (by decide)).2.1⟩

/-! ### C3: lines without a token -/

/-- C3, as stated, fails on the line that holds one space before its newline: `cmd[0]` is
the space, so `send_cmd` is called and six zero bytes are transferred. -/
theorem blank_line_counterexample :
    main echoDevice ["spi".toList, "dev".toList] " \nq\n".toList 2
      = Outcome.exited 0
          (([Event.openDevice SPI_DEVICE, Event.setMode 3 0, Event.setMaxSpeed 3 1000000,
             Event.print promptText]
            ++ (transferAndDump (1, [0, 0, 0, 0, 0, 0]) 3
                 { trx := { tx_buf := Ptr.tx_buffer, rx_buf := Ptr.rx_buffer, len := 6,
                            speed_hz := 1000000, delay_usecs := 0, bits_per_word := 0,
                            rest := 0 }
                   tx_buffer := [0, 0, 0, 0, 0, 0], rx_buffer := [0, 0, 0, 0, 0, 0] }).2)
            ++ [Event.print promptText, Event.close 3]) ∧
    transfers (main echoDevice ["spi".toList, "dev".toList] " \nq\n".toList 2).trace = 1 := by
  decide

/-- The trace so far is kept by the read loop. -/
theorem mainLoop_trace_mono (dev : Device) (fd : Int) :
    ∀ (fuel : Nat) (cmd stdin : List Char) (calls : Nat) (g : Globals) (trace : List Event),
      trace <+: (mainLoop dev fd fuel cmd stdin calls g trace).trace := by
  intro fuel
  induction fuel with
  | zero =>
    intro cmd stdin calls g trace
    exact List.prefix_refl _
  | succ n ih =>
    intro cmd stdin calls g trace
    rw [mainLoop]
    by_cases h0 : charAt cmd 0 = 'q'
    · rw [if_pos h0]
      exact List.prefix_append _ _
    · rw [if_neg h0]
      simp only
      by_cases h1 : charAt (fgets cmd stdin).1 0 = 'q'
      · rw [if_pos h1]
        simp only [closeAndExit, Outcome.trace, List.append_assoc]
        exact List.prefix_append _ _
      · rw [if_neg h1]
        by_cases hsend : charAt (fgets cmd stdin).1 0 ≠ '\n' ∧ charAt (fgets cmd stdin).1 0 ≠ NUL
        · rw [if_pos hsend]
          obtain ⟨r, hr, _, _⟩ := send_cmd_total (dev.stack calls) (dev.message calls) fd
            (fgets cmd stdin).1 g
          simp only [hr]
          refine List.IsPrefix.trans ?_ (ih _ _ _ _ _)
          rw [List.append_assoc]
          exact List.prefix_append _ _
        · rw [if_neg hsend]
          exact List.IsPrefix.trans (List.prefix_append _ _) (ih _ _ _ _ _)

/-- C3, amended: when the line read starts with a newline (an empty line) or with a NUL,
the turn of the loop adds the prompt to the trace and nothing else — `send_cmd` is not
called, the globals are untouched — and the next turn prompts again.  Every line that
starts with a space, whatever follows the space, is not such a line: the turn calls
`send_cmd` on it, which returns with exactly one transfer, and the loop goes on from the
globals and the trace that `send_cmd` leaves. -/
theorem mainLoop_empty_line (dev : Device) (fd : Int) (fuel : Nat) (cmd rest : List Char)
    (calls : Nat) (g : Globals) (trace : List Event) (c : Char)
    (hc : c = '\n' ∨ c = NUL) (hq : charAt cmd 0 ≠ 'q') :
    mainLoop dev fd (fuel + 1) cmd (c :: rest) calls g trace
      = mainLoop dev fd fuel (fgets cmd (c :: rest)).1 (fgets cmd (c :: rest)).2 calls g
          (trace ++ [Event.print promptText]) ∧
    (trace ++ [Event.print promptText, Event.print promptText])
      <+: (mainLoop dev fd (fuel + 2) cmd (c :: rest) calls g trace).trace ∧
    (∀ (line : List Char), ∃ r,
      send_cmd (dev.stack calls) (dev.message calls) fd (fgets cmd (' ' :: line)).1 g = some r ∧
      transfers r.2 = 1 ∧
      mainLoop dev fd (fuel + 1) cmd (' ' :: line) calls g trace
        = mainLoop dev fd fuel (fgets cmd (' ' :: line)).1 (fgets cmd (' ' :: line)).2
            (calls + 1) r.1 (trace ++ [Event.print promptText] ++ r.2)) := by
  have hn : ('\n' = NUL) = False := by decide
  have hfirst : charAt (fgets cmd (c :: rest)).1 0 = c := by
    rcases hc with hc | hc
    · subst hc
      simp [fgets, fgetsTake, charAt_cons_zero]
    · subst hc
      simp [fgets, fgetsTake, charAt, strlen, hn]
  have hcq : c ≠ 'q' := by
    rcases hc with hc | hc <;> subst hc <;> decide
  have hnosend : ¬ (c ≠ '\n' ∧ c ≠ NUL) := by
    rcases hc with hc | hc <;> subst hc <;> simp
  have hstep : ∀ f, mainLoop dev fd (f + 1) cmd (c :: rest) calls g trace
      = mainLoop dev fd f (fgets cmd (c :: rest)).1 (fgets cmd (c :: rest)).2 calls g
          (trace ++ [Event.print promptText]) := by
    intro f
    rw [mainLoop, if_neg hq]
    simp only [hfirst]
    rw [if_neg hcq, if_neg hnosend]
  refine ⟨hstep fuel, ?_, ?_⟩
  · rw [hstep (fuel + 1), mainLoop, hfirst, if_neg hcq]
    simp only
    by_cases h1 : charAt (fgets (fgets cmd (c :: rest)).1 (fgets cmd (c :: rest)).2).1 0 = 'q'
    · rw [if_pos h1]
      simp only [closeAndExit, Outcome.trace, List.append_assoc, List.singleton_append]
      exact (List.prefix_append_right_inj trace).mpr (List.prefix_append _ _)
    · rw [if_neg h1]
      split
      · split
        · simp only [Outcome.trace, List.append_assoc, List.singleton_append]
          exact List.prefix_refl _
        · refine List.IsPrefix.trans ?_ (mainLoop_trace_mono dev fd _ _ _ _ _ _)
          simp only [List.append_assoc, List.singleton_append]
          exact (List.prefix_append_right_inj trace).mpr (List.prefix_append _ _)
      · refine List.IsPrefix.trans ?_ (mainLoop_trace_mono dev fd _ _ _ _ _ _)
        simp only [List.append_assoc, List.singleton_append]
        exact List.prefix_refl _
  · intro line
    have hsn : (' ' = '\n') = False := by decide
    have hsp : charAt (fgets cmd (' ' :: line)).1 0 = ' ' := by
      simp [fgets, fgetsTake, hsn, charAt_cons_zero]
    have hspq : ¬ (' ' = 'q') := by decide
    have hsend : (' ' : Char) ≠ '\n' ∧ (' ' : Char) ≠ NUL := by decide
    obtain ⟨r, hr, _, htr⟩ := send_cmd_total (dev.stack calls) (dev.message calls) fd
      (fgets cmd (' ' :: line)).1 g
    refine ⟨r, hr, htr, ?_⟩
    rw [mainLoop, if_neg hq]
    simp only [hsp]
    rw [if_neg hspq, if_pos hsend]
    simp only [hr]

/-- The amended C3 on an empty line followed by `1 2`: the first turn only prompts; and
on the line made of one space and a newline: the turn calls `send_cmd` and transfers. -/
theorem mainLoop_empty_line_witness :
    (('\n' = '\n' ∨ '\n' = NUL) ∧ charAt [] 0 ≠ 'q') ∧
    (mainLoop echoDevice 3 (1 + 1) [] ('\n' :: "1 2\n".toList) 0 initialGlobals []
      = mainLoop echoDevice 3 1 (fgets [] ('\n' :: "1 2\n".toList)).1
          (fgets [] ('\n' :: "1 2\n".toList)).2 0 initialGlobals
          ([] ++ [Event.print promptText]) ∧
    ([] ++ [Event.print promptText, Event.print promptText])
      <+: (mainLoop echoDevice 3 (1 + 2) [] ('\n' :: "1 2\n".toList) 0 initialGlobals
            []).trace ∧
    (∀ (line : List Char), ∃ r,
      send_cmd (echoDevice.stack 0) (echoDevice.message 0) 3 (fgets [] (' ' :: line)).1
          initialGlobals = some r ∧
      transfers r.2 = 1 ∧
      mainLoop echoDevice 3 (1 + 1) [] (' ' :: line) 0 initialGlobals []
        = mainLoop echoDevice 3 1 (fgets [] (' ' :: line)).1 (fgets [] (' ' :: line)).2
            (0 + 1) r.1 ([] ++ [Event.print promptText] ++ r.2))) ∧
    transfers (mainLoop echoDevice 3 1 [] ('\n' :: "1 2\n".toList) 0 initialGlobals []).trace
      = 0 ∧
    transfers (mainLoop echoDevice 3 1 [] " \n".toList 0 initialGlobals []).trace = 1 :=
  ⟨⟨by decide, by decide⟩,
   mainLoop_empty_line echoDevice 3 1 [] "1 2\n".toList 0 initialGlobals [] '\n'
     (by decide) (by decide),
   by decide, by decide⟩

/-! ### C4: end of input -/

/-- C4 on the code: when the input is at its end, `fgets` leaves `cmd` as it was and the
loop does not leave — for every fuel the run is still inside the loop, no `close` has
happened, every turn has prompted again, and when the retained line is one that is sent,
every turn has transferred it again. -/
theorem mainLoop_eof_spins (dev : Device) (fd : Int) (fuel : Nat) (cmd : List Char)
    (calls : Nat) (g : Globals) (trace : List Event) (hq : charAt cmd 0 ≠ 'q') :
    ∃ t, mainLoop dev fd fuel cmd [] calls g trace = Outcome.running (trace ++ t) ∧
      closes t = 0 ∧ fuel ≤ t.length ∧
      ((charAt cmd 0 ≠ '\n' ∧ charAt cmd 0 ≠ NUL) → transfers t = fuel) := by
  induction fuel generalizing calls g trace with
  | zero => exact ⟨[], by simp [mainLoop], rfl, Nat.le_refl _, fun _ => rfl⟩
  | succ n ih =>
    rw [mainLoop, if_neg hq]
    have hf : fgets cmd [] = (cmd, []) := rfl
    simp only [hf]
    rw [if_neg hq]
    by_cases hsend : charAt cmd 0 ≠ '\n' ∧ charAt cmd 0 ≠ NUL
    · rw [if_pos hsend]
      obtain ⟨r, hr, hcl, htr⟩ := send_cmd_total (dev.stack calls) (dev.message calls) fd cmd g
      simp only [hr]
      obtain ⟨t, ht, htc, htl, htt⟩ := ih (calls + 1) r.1 (trace ++ [Event.print promptText] ++ r.2)
      refine ⟨[Event.print promptText] ++ r.2 ++ t, ?_, ?_, ?_, ?_⟩
      · rw [ht]
        simp only [List.append_assoc]
      · rw [closes_append, closes_append, hcl, htc]
        rfl
      · simp only [List.length_append, List.length_singleton]
        omega
      · intro _
        rw [transfers_append, transfers_append, htr, htt hsend]
        simp only [transfers, isTransfer, List.filter_cons, List.filter_nil]
        simp only [Bool.false_eq_true, if_false, List.length_nil]
        omega
    · rw [if_neg hsend]
      obtain ⟨t, ht, htc, htl, _⟩ := ih calls g (trace ++ [Event.print promptText])
      refine ⟨[Event.print promptText] ++ t, ?_, ?_, ?_, ?_⟩
      · rw [ht]
        simp only [List.append_assoc]
      · rw [closes_append, htc]
        rfl
      · simp only [List.length_append, List.length_singleton]
        omega
      · intro h
        exact absurd h hsend

/-- C4 at the input `1 2` followed by the end of input: after the line has been read into
`cmd`, four more turns at end of input leave the loop running, with no `close` and four
more transfers of the same line. -/
theorem mainLoop_eof_spins_witness :
    charAt "1 2\n".toList 0 ≠ 'q' ∧
    (∃ t, mainLoop echoDevice 3 4 "1 2\n".toList [] 1 initialGlobals []
        = Outcome.running ([] ++ t) ∧
      closes t = 0 ∧ 4 ≤ t.length ∧
      ((charAt "1 2\n".toList 0 ≠ '\n' ∧ charAt "1 2\n".toList 0 ≠ NUL) → transfers t = 4)) ∧
    transfers (main echoDevice ["spi".toList, "dev".toList] "1 2\n".toList 5).trace = 5 ∧
    closes (main echoDevice ["spi".toList, "dev".toList] "1 2\n".toList 5).trace = 0 :=
  ⟨by decide,
   mainLoop_eof_spins echoDevice 3 4 "1 2\n".toList 1 initialGlobals [] (by decide),
   by decide, by decide⟩

/-! ### C5: a line that starts with `q` -/

/-- C5: in a run of `main` that reaches the read loop (two arguments, `open` and both
configuration calls succeed), if the first `n` lines read do not start with `q` and the
next line read does, then `main` returns 0 with at most `n + 1` turns of the loop; the
last two events are the prompt for that line and the `close` of the handle (so no transfer
happens for that line), and there is no other `close` in the run. -/
theorem main_quit_line (dev : Device) (argv : List (List Char)) (stdin : List Char)
    (n extra : Nat)
    (hargs : 2 ≤ argv.length) (hopen : 0 ≤ dev.open_ret)
    (hmode : dev.mode_ret = 0) (hspeed : dev.speed_ret = 0)
    (hpre : ∀ k, k ≤ n → charAt (readN k [] stdin).1 0 ≠ 'q')
    (hq : charAt (readN (n + 1) [] stdin).1 0 = 'q') :
    ∃ t, main dev argv stdin (n + 1 + extra)
        = Outcome.exited 0 (t ++ [Event.print promptText, Event.close dev.open_ret]) ∧
      closes t = 0 ∧
      closes (t ++ [Event.print promptText, Event.close dev.open_ret]) = 1 := by
  have hinit : init_spi_device dev.mode_ret dev.speed_ret dev.open_ret initialGlobals
      = (true,
         { initialGlobals with trx := { initialGlobals.trx with
             tx_buf := Ptr.tx_buffer, rx_buf := Ptr.rx_buffer, bits_per_word := 0,
             speed_hz := MAX_SPI_SPEED, delay_usecs := 0, len := BUFFER_SIZE } },
         [Event.setMode dev.open_ret SPI_MODE_0, Event.setMaxSpeed dev.open_ret MAX_SPI_SPEED]) := by
    simp [init_spi_device, hmode, hspeed]
  obtain ⟨t, ht, htc⟩ := mainLoop_quit dev dev.open_ret extra n [] stdin 0
    { initialGlobals with trx := { initialGlobals.trx with
        tx_buf := Ptr.tx_buffer, rx_buf := Ptr.rx_buffer, bits_per_word := 0,
        speed_hz := MAX_SPI_SPEED, delay_usecs := 0, len := BUFFER_SIZE } }
    ([Event.openDevice SPI_DEVICE] ++
      [Event.setMode dev.open_ret SPI_MODE_0, Event.setMaxSpeed dev.open_ret MAX_SPI_SPEED])
    hpre hq
  have hc0 : closes ([Event.openDevice SPI_DEVICE] ++
      [Event.setMode dev.open_ret SPI_MODE_0, Event.setMaxSpeed dev.open_ret MAX_SPI_SPEED]
      ++ t) = 0 := by
    rw [closes_append, htc]
    rfl
  refine ⟨[Event.openDevice SPI_DEVICE] ++
      [Event.setMode dev.open_ret SPI_MODE_0, Event.setMaxSpeed dev.open_ret MAX_SPI_SPEED]
      ++ t, ?_, hc0, ?_⟩
  · unfold main
    rw [if_neg (by omega), if_neg (by omega), hinit]
    simp only [Bool.true_eq_false, if_false]
    exact ht
  · rw [closes_append, hc0]
    rfl

/-- C5 on the input `1 2`, newline, `q`, newline: the second line read starts with `q`. -/
theorem main_quit_line_witness :
    (∀ k, k ≤ 1 → charAt (readN k [] "1 2\nq\n".toList).1 0 ≠ 'q') ∧
    charAt (readN (1 + 1) [] "1 2\nq\n".toList).1 0 = 'q' ∧
    ∃ t, main echoDevice ["spi".toList, "dev".toList] "1 2\nq\n".toList (1 + 1 + 0)
        = Outcome.exited 0 (t ++ [Event.print promptText, Event.close echoDevice.open_ret]) ∧
      closes t = 0 ∧
      closes (t ++ [Event.print promptText, Event.close echoDevice.open_ret]) = 1 :=
  ⟨by decide, by decide,
   main_quit_line echoDevice ["spi".toList, "dev".toList] "1 2\nq\n".toList 1 0
     (by decide) (by decide) rfl rfl (by decide) (by decide)⟩

/-! ### C6: the three failures before the read loop -/

/-- C6: with fewer than two arguments, with a failed `open`, or with a failed mode or speed
configuration, `main` returns 1 and its trace holds no transfer, for every input and
every fuel.  Without an argument or with a failed `open` no event is given the handle
(nothing is configured, transferred or closed); with an opened device whose configuration
fails there is exactly one `close`, of that handle, and it is the last event. -/
theorem main_failure_exits (dev : Device) (argv : List (List Char)) (stdin : List Char)
    (fuel : Nat)
    (h : argv.length < 2 ∨ dev.open_ret < 0 ∨ dev.mode_ret ≠ 0 ∨ dev.speed_ret ≠ 0) :
    ∃ t, main dev argv stdin fuel = Outcome.exited 1 t ∧ transfers t = 0 ∧
      ((argv.length < 2 ∨ dev.open_ret < 0) → ∀ e ∈ t, usesHandle e = false) ∧
      ((2 ≤ argv.length ∧ 0 ≤ dev.open_ret) →
        closes t = 1 ∧ t.getLast? = some (Event.close dev.open_ret)) := by
  by_cases hargs : argv.length < 2
  · have hmain : main dev argv stdin fuel = Outcome.exited 1
        [Event.print ("Usage: ".toList ++ argv.headD "(null)".toList
          ++ " <spi_device>\r\n".toList)] := by
      simp only [main, hargs, if_true]
    refine ⟨_, hmain, by rfl, ?_, ?_⟩
    · intro _ e he
      simp only [List.mem_singleton] at he
      subst he
      rfl
    · intro h2
      omega
  · by_cases hopen : dev.open_ret < 0
    · have hmain : main dev argv stdin fuel = Outcome.exited 1
          [Event.openDevice SPI_DEVICE,
           Event.print "Could not open the SPI device...\r\n".toList] := by
        simp only [main, hargs, hopen, if_true, if_false]
      refine ⟨_, hmain, by rfl, ?_, ?_⟩
      · intro _ e he
        simp only [List.mem_cons, List.mem_singleton, List.not_mem_nil, or_false] at he
        rcases he with he | he <;> subst he <;> rfl
      · intro h2
        omega
    · have hcfg : dev.mode_ret ≠ 0 ∨ dev.speed_ret ≠ 0 := by
        rcases h with h | h | h | h
        · exact absurd h hargs
        · exact absurd h hopen
        · exact Or.inl h
        · exact Or.inr h
      by_cases hm : dev.mode_ret = 0
      · have hs : dev.speed_ret ≠ 0 := by
          rcases hcfg with h' | h'
          · exact absurd hm h'
          · exact h'
        have hmain : main dev argv stdin fuel = Outcome.exited 1
            ([Event.openDevice SPI_DEVICE]
              ++ [Event.setMode dev.open_ret SPI_MODE_0,
                  Event.setMaxSpeed dev.open_ret MAX_SPI_SPEED,
                  Event.print "Could not write the SPI max speed...\r\n".toList]
              ++ [Event.print "Could not init SPI device...\r\n".toList,
                  Event.close dev.open_ret]) := by
          simp only [main, hargs, hopen, if_false, init_spi_device, hm, hs,
            ne_eq, not_true_eq_false, not_false_eq_true, if_true]
        refine ⟨_, hmain, by rfl, ?_, ?_⟩
        · intro h2
          omega
        · intro _
          exact ⟨by rfl, by rfl⟩
      · have hmain : main dev argv stdin fuel = Outcome.exited 1
            ([Event.openDevice SPI_DEVICE]
              ++ [Event.setMode dev.open_ret SPI_MODE_0,
                  Event.print "Could not write SPI mode...\r\n".toList]
              ++ [Event.print "Could not init SPI device...\r\n".toList,
                  Event.close dev.open_ret]) := by
          simp only [main, hargs, hopen, if_false, init_spi_device, hm,
            ne_eq, not_false_eq_true, if_true]
        refine ⟨_, hmain, by rfl, ?_, ?_⟩
        · intro h2
          omega
        · intro _
          exact ⟨by rfl, by rfl⟩

/-- C6 in its three cases: no argument, failed `open`, failed speed configuration. -/
theorem main_failure_exits_witness :
    ((["spi".toList].length < 2 ∨ echoDevice.open_ret < 0 ∨ echoDevice.mode_ret ≠ 0
        ∨ echoDevice.speed_ret ≠ 0) ∧
      ∃ t, main echoDevice ["spi".toList] "1 2\n".toList 5 = Outcome.exited 1 t ∧
        transfers t = 0 ∧
        ((["spi".toList].length < 2 ∨ echoDevice.open_ret < 0) →
          ∀ e ∈ t, usesHandle e = false) ∧
        ((2 ≤ ["spi".toList].length ∧ 0 ≤ echoDevice.open_ret) →
          closes t = 1 ∧ t.getLast? = some (Event.close echoDevice.open_ret))) ∧
    ((["spi".toList, "dev".toList].length < 2 ∨ noDevice.open_ret < 0 ∨ noDevice.mode_ret ≠ 0
        ∨ noDevice.speed_ret ≠ 0) ∧
      ∃ t, main noDevice ["spi".toList, "dev".toList] "1 2\n".toList 5 = Outcome.exited 1 t ∧
        transfers t = 0 ∧
        ((["spi".toList, "dev".toList].length < 2 ∨ noDevice.open_ret < 0) →
          ∀ e ∈ t, usesHandle e = false) ∧
        ((2 ≤ ["spi".toList, "dev".toList].length ∧ 0 ≤ noDevice.open_ret) →
          closes t = 1 ∧ t.getLast? = some (Event.close noDevice.open_ret))) ∧
    ((["spi".toList, "dev".toList].length < 2 ∨ slowDevice.open_ret < 0
        ∨ slowDevice.mode_ret ≠ 0 ∨ slowDevice.speed_ret ≠ 0) ∧
      ∃ t, main slowDevice ["spi".toList, "dev".toList] "1 2\n".toList 5 = Outcome.exited 1 t ∧
        transfers t = 0 ∧
        ((["spi".toList, "dev".toList].length < 2 ∨ slowDevice.open_ret < 0) →
          ∀ e ∈ t, usesHandle e = false) ∧
        ((2 ≤ ["spi".toList, "dev".toList].length ∧ 0 ≤ slowDevice.open_ret) →
          closes t = 1 ∧ t.getLast? = some (Event.close slowDevice.open_ret))) :=
  ⟨⟨by decide, main_failure_exits echoDevice ["spi".toList] "1 2\n".toList 5 (by decide)⟩,
   ⟨by decide,
    main_failure_exits noDevice ["spi".toList, "dev".toList] "1 2\n".toList 5 (by decide)⟩,
   ⟨by decide,
    main_failure_exits slowDevice ["spi".toList, "dev".toList] "1 2\n".toList 5 (by decide)⟩⟩

/-! ### C7: the two dump lines -/

theorem toUint8_lt (v : Int) : toUint8 v < 256 := by
  unfold toUint8
  omega

set_option maxRecDepth 100000 in
theorem fmt02x_byte_all :
    ∀ v < 256, fmt02x v = [lowerHexDigit (v / 16), lowerHexDigit (v % 16)] := by
  decide

theorem stdout_append (a b : List Event) : stdout (a ++ b) = stdout a ++ stdout b := by
  induction a with
  | nil => rfl
  | cons e es ih =>
    cases e <;> simp [stdout, ih]

theorem stdout_dumpBytes (buf : List Nat) (hlen : buf.length = BUFFER_SIZE)
    (hbytes : ∀ b ∈ buf, b < 256) : stdout (dumpBytes buf) = specDump buf := by
  match buf, hlen with
  | [b0, b1, b2, b3, b4, b5], _ =>
    have h0 := fmt02x_byte_all b0 (hbytes b0 (by simp))
    have h1 := fmt02x_byte_all b1 (hbytes b1 (by simp))
    have h2 := fmt02x_byte_all b2 (hbytes b2 (by simp))
    have h3 := fmt02x_byte_all b3 (hbytes b3 (by simp))
    have h4 := fmt02x_byte_all b4 (hbytes b4 (by simp))
    have h5 := fmt02x_byte_all b5 (hbytes b5 (by simp))
    simp [dumpBytes, BUFFER_SIZE, List.range_succ, stdout, specDump, specByte,
      h0, h1, h2, h3, h4, h5]

theorem storeBytes_length (bytes : List Nat) : (storeBytes bytes).length = BUFFER_SIZE := by
  simp [storeBytes]

theorem storeBytes_lt (bytes : List Nat) : ∀ b ∈ storeBytes bytes, b < 256 := by
  intro b hb
  simp only [storeBytes, List.mem_map] at hb
  obtain ⟨i, _, rfl⟩ := hb
  omega

theorem parseBody_buffer (tx_rx stack : List Char) (st : ParseState)
    (hlen : st.tx_buffer.length = BUFFER_SIZE) (hbytes : ∀ b ∈ st.tx_buffer, b < 256) :
    (parseBody tx_rx stack st).tx_buffer.length = BUFFER_SIZE ∧
    ∀ b ∈ (parseBody tx_rx stack st).tx_buffer, b < 256 := by
  unfold parseBody
  split
  · exact ⟨hlen, hbytes⟩
  · refine ⟨by simp only [List.length_set]; exact hlen, ?_⟩
    intro b hb
    rcases List.mem_or_eq_of_mem_set hb with h | h
    · exact hbytes b h
    · rw [h]
      exact toUint8_lt _

/-- The parse loop keeps `tx_buffer` an array of six bytes. -/
theorem parseLoop_buffer (tx_rx stack : List Char) :
    ∀ (fuel : Nat) (st st' : ParseState), parseLoop tx_rx stack fuel st = some st' →
      st.tx_buffer.length = BUFFER_SIZE → (∀ b ∈ st.tx_buffer, b < 256) →
      st'.tx_buffer.length = BUFFER_SIZE ∧ ∀ b ∈ st'.tx_buffer, b < 256 := by
  intro fuel
  induction fuel with
  | zero =>
    intro st st' h
    simp [parseLoop] at h
  | succ n ih =>
    intro st st' h hlen hbytes
    rw [parseLoop] at h
    split at h
    · have hb := parseBody_buffer tx_rx stack
        { st with reads := st.reads ++ List.range (strlen tx_rx + 1) } hlen hbytes
      exact ih _ _ h hb.1 hb.2
    · injection h with h
      subst h
      exact ⟨hlen, hbytes⟩

/-- C7: for every line, every scratch memory, every answer of the device (return value and
bytes left in `rx_buffer`) and every prior content of the two buffers, `send_cmd` returns
and what it prints is: the diagnostic when the transfer returned less than 1 and nothing
otherwise, then `TX: `, the six transmit bytes, CR LF, then `RX: `, the six receive bytes,
CR LF — each byte as exactly two lowercase hexadecimal digits followed by one space.  The
two dump lines are the same text whether or not the diagnostic precedes them. -/
theorem send_cmd_output (stack : List Char) (message : Descriptor → List Nat → Int × List Nat)
    (fd : Int) (tx_rx : List Char) (g : Globals) (hlen : g.tx_buffer.length = BUFFER_SIZE) :
    ∃ r, send_cmd stack message fd tx_rx g = some r ∧
      r.1.tx_buffer.length = 6 ∧ r.1.rx_buffer.length = 6 ∧
      stdout r.2
        = (if (message g.trx r.1.tx_buffer).1 < 1 then transferDiagnostic else [])
          ++ ("TX: ".toList ++ specDump r.1.tx_buffer ++ "\r\n".toList)
          ++ ("RX: ".toList ++ specDump r.1.rx_buffer ++ "\r\n".toList) := by
  obtain ⟨st, hst⟩ := parse_total tx_rx stack g.tx_buffer
  have hinv := parseLoop_buffer tx_rx stack _ _ st hst
    (by simp only [resetBuffer_eq g.tx_buffer hlen]; rfl)
    (by simp only [resetBuffer_eq g.tx_buffer hlen]; decide)
  have h : send_cmd stack message fd tx_rx g
      = some (transferAndDump
          (message g.trx st.tx_buffer) fd
          { g with tx_buffer := st.tx_buffer, rx_buffer := resetBuffer g.rx_buffer }) := by
    simp only [send_cmd, hst]
  refine ⟨_, h, hinv.1, storeBytes_length _, ?_⟩
  simp only [transferAndDump, stdout_append]
  rw [stdout_dumpBytes st.tx_buffer hinv.1 hinv.2,
    stdout_dumpBytes (storeBytes _) (storeBytes_length _) (storeBytes_lt _)]
  by_cases hret : (message g.trx st.tx_buffer).1 < 1
  · simp [hret, stdout, transferDiagnostic]
  · simp [hret, stdout]

/-- C7 on the line `1 2 3 4`: with a transfer that succeeds the output begins
`TX: 01 02 03 04 00 00`; with one that fails the same two lines follow the diagnostic. -/
theorem send_cmd_output_witness :
    initialGlobals.tx_buffer.length = BUFFER_SIZE ∧
    (∃ r, send_cmd [] (fun _ tx => (1, tx)) 3 "1 2 3 4\n".toList initialGlobals = some r ∧
      r.1.tx_buffer.length = 6 ∧ r.1.rx_buffer.length = 6 ∧
      stdout r.2
        = (if ((fun (_ : Descriptor) (tx : List Nat) => ((1 : Int), tx)) initialGlobals.trx
              r.1.tx_buffer).1 < 1 then transferDiagnostic else [])
          ++ ("TX: ".toList ++ specDump r.1.tx_buffer ++ "\r\n".toList)
          ++ ("RX: ".toList ++ specDump r.1.rx_buffer ++ "\r\n".toList)) ∧
    (send_cmd [] (fun _ tx => (1, tx)) 3 "1 2 3 4\n".toList initialGlobals).map
        (fun r => stdout r.2)
      = some "TX: 01 02 03 04 00 00 \r\nRX: 01 02 03 04 00 00 \r\n".toList ∧
    (send_cmd [] (fun _ _ => (-1, [])) 3 "1 2 3 4\n".toList initialGlobals).map
        (fun r => stdout r.2)
      = some ("Failed to write to SPI message...\r\n".toList
          ++ "TX: 01 02 03 04 00 00 \r\nRX: 00 00 00 00 00 00 \r\n".toList) :=
  ⟨by decide,
   send_cmd_output [] (fun _ tx => (1, tx)) 3 "1 2 3 4\n".toList initialGlobals (by decide),
   by decide, by decide⟩

end SpiConsole
